import Mathlib

/-
Verification development for the kext_tools helper-partition update engine.

The definitions below are shallow embeddings of the C sources:
  - safecalls.c   (scope-confined filesystem primitives: spolicy, schdirparent,
                   sopen, smkdir, srmdir, sunlink, srename, sdeepunlink,
                   sdeepmkdir, scopyfile)
  - bootcaches.c  (parseDict, needsUpdate, applyStamps aggregation)
  - update_boot.c (updateBoots commit logic, FindRPSDir, ucopyBooters,
                   activateBooters)

The filesystem is modelled as a finite association list from absolute paths
(lists of path components; [] denotes the volume root "/") to file nodes.
An open file descriptor used purely as a device-identity witness (the scope
fd of the SafePath layer) is modelled by the device number its fstat would
report.  stat failures other than ENOENT are not modelled (a lookup miss is
ENOENT).  PATH_MAX overflow checks are not modelled (paths are unbounded).
-/

set_option autoImplicit false

namespace KT

/-! ### errno and flag constants (Darwin values) -/

def EPERM : Int := 1
def ENOENT : Int := 2
def EEXIST : Int := 17
def ENOTDIR : Int := 20
def EINVAL : Int := 22
def ENOTEMPTY : Int := 66
/-- ELAST1 stands for the C expression ELAST + 1, the generic failure value
used throughout update_boot.c. -/
def ELAST1 : Int := 107

def O_RDONLY : Nat := 0
def O_WRONLY : Nat := 1
def O_RDWR : Nat := 2
def O_CREAT : Nat := 512
def O_EXCL : Nat := 2048

def S_IFMT : Nat := 61440
def S_IFDIR : Nat := 16384
def S_IFREG : Nat := 32768
def S_IWUSR : Nat := 128
def S_IXUSR : Nat := 64
def S_IRGRP : Nat := 32
def S_IXGRP : Nat := 8
def S_IROTH : Nat := 4
def S_IXOTH : Nat := 1

/-! ### paths and file nodes -/

/-- A path is the list of its components; [] is the volume root. -/
abbrev Path := List String

/-- One inode worth of state.  mode holds the permission bits only; the
file-type bits of st_mode are derived from isDir (see FNode.stmode). -/
structure FNode where
  isDir : Bool
  dev : Nat
  ino : Nat
  mode : Nat
  size : Nat
  content : Nat
  xattr : Nat
  mtimeSec : Nat
  mtimeNsec : Nat
  atimeSec : Nat
  atimeNsec : Nat
deriving DecidableEq, Repr

/-- st_mode as fstat reports it: permission bits plus the file-type bits. -/
def FNode.stmode (n : FNode) : Nat :=
  n.mode ||| (if n.isDir then S_IFDIR else S_IFREG)

/-- A filesystem: a finite map from paths to nodes, as an association list. -/
abbrev FS := List (Path × FNode)

/-- stat by path (a lookup miss is ENOENT). -/
def FS.stat (fs : FS) (p : Path) : Option FNode :=
  (fs.find? (fun e => e.1 = p)).map (fun e => e.2)

/-- dirname: all but the last component ([] maps to [], i.e. "/"). -/
def dirnameP (p : Path) : Path := p.dropLast

/-- pstarts pre p holds when pre is an initial run of the components of p. -/
def pstarts (pre p : Path) : Bool := p.take pre.length = pre

/-- Append a suffix such as ".old" to the last component of a path
(pathcat on the flat C string). -/
def addExt : Path → String → Path
  | [], _ => []
  | [a], e => [a ++ e]
  | a :: b :: rest, e => a :: addExt (b :: rest) e

/-- Largest inode number in use, for creating fresh nodes. -/
def freshIno (fs : FS) : Nat :=
  (fs.foldr (fun e n => max n e.2.ino) 0) + 1

/-! ### safecalls.c -/

/-- spolicy from safecalls.c: fstat the scope descriptor and the candidate
directory descriptor and require equal st_dev; on mismatch the result is
EPERM.  The two descriptors are modelled by the devices their fstat
reports. -/
def spolicy (scopefdDev candfdDev : Nat) : Int :=
  if scopefdDev ≠ candfdDev then EPERM else 0

/-- schdirparent from safecalls.c: open the dirname of the target read-only,
apply spolicy against the scope fd, then fchdir into it.  Returns the node
of the parent directory on success.  A missing parent, an spolicy failure,
or fchdir into a non-directory all fail (the C function returns -1 in every
one of these cases). -/
def schdirparent (fs : FS) (fdvol : Nat) (path : Path) : Option FNode :=
  if path = [] then none
  else
    match fs.stat (dirnameP path) with
    | none => none
    | some st =>
      if spolicy fdvol st.dev ≠ 0 then none
      else if st.isDir then some st else none

/-- The flag adjustment at the top of sopen: O_CREAT forces O_EXCL.  These
are exactly the flags handed to the underlying open(2). -/
def sopenFlags (flags : Nat) : Nat :=
  if flags &&& O_CREAT ≠ 0 then flags ||| O_EXCL else flags

/-- open(2) relative to the already-verified parent directory (the C call
open(child, flags, mode) after fchdir).  pdev is the device of the parent:
a newly created node lands on it.  The kernel masks the requested mode to
its low twelve bits.  Returns the opened node and the possibly extended
filesystem. -/
def openSys (fs : FS) (pdev : Nat) (path : Path) (flags mode : Nat) :
    Option FNode × FS :=
  match fs.stat path with
  | some st =>
    if flags &&& O_CREAT ≠ 0 && flags &&& O_EXCL ≠ 0 then (none, fs)
    else (some st, fs)
  | none =>
    if flags &&& O_CREAT ≠ 0 then
      let n : FNode :=
        { isDir := false, dev := pdev, ino := freshIno fs,
          mode := mode &&& 4095, size := 0, content := 0, xattr := 0,
          mtimeSec := 0, mtimeNsec := 0, atimeSec := 0, atimeNsec := 0 }
      (some n, (path, n) :: fs)
    else (none, fs)

/-- sopen from safecalls.c: force O_EXCL alongside O_CREAT, schdirparent,
then open the base name inside the verified parent. -/
def sopen (fs : FS) (fdvol : Nat) (path : Path) (flags mode : Nat) :
    Option FNode × FS :=
  let fl := sopenFlags flags
  match schdirparent fs fdvol path with
  | none => (none, fs)
  | some pn => openSys fs pn.dev path fl mode

/-- smkdir from safecalls.c: schdirparent then mkdir of the base name. -/
def smkdir (fs : FS) (fdvol : Nat) (path : Path) (mode : Nat) : Int × FS :=
  match schdirparent fs fdvol path with
  | none => (-1, fs)
  | some pn =>
    match fs.stat path with
    | some _ => (EEXIST, fs)
    | none =>
      let n : FNode :=
        { isDir := true, dev := pn.dev, ino := freshIno fs,
          mode := mode &&& 4095, size := 0, content := 0, xattr := 0,
          mtimeSec := 0, mtimeNsec := 0, atimeSec := 0, atimeNsec := 0 }
      (0, (path, n) :: fs)

/-- srmdir from safecalls.c: schdirparent then rmdir of the base name. -/
def srmdir (fs : FS) (fdvol : Nat) (path : Path) : Int × FS :=
  match schdirparent fs fdvol path with
  | none => (-1, fs)
  | some _ =>
    match fs.stat path with
    | none => (ENOENT, fs)
    | some st =>
      if ¬ st.isDir then (ENOTDIR, fs)
      else if fs.any (fun e => pstarts path e.1 && e.1 ≠ path) then
        (ENOTEMPTY, fs)
      else (0, fs.filter (fun e => e.1 ≠ path))

/-- sunlink from safecalls.c: schdirparent then unlink of the base name. -/
def sunlink (fs : FS) (fdvol : Nat) (path : Path) : Int × FS :=
  match schdirparent fs fdvol path with
  | none => (-1, fs)
  | some _ =>
    match fs.stat path with
    | none => (ENOENT, fs)
    | some st =>
      if st.isDir then (EPERM, fs)
      else (0, fs.filter (fun e => e.1 ≠ path))

/-- Move the subtree rooted at old to dest (rename(2) semantics: an existing
destination is replaced). -/
def renameApply (fs : FS) (old dest : Path) : FS :=
  (fs.filter (fun e => ¬ pstarts dest e.1)).map
    (fun e =>
      if pstarts old e.1 then (dest ++ e.1.drop old.length, e.2) else e)

/-- srename from safecalls.c.  The new name is reduced to its base name
first, so the rename happens inside the parent directory of oldpath (the
directory schdirparent moved into).  A missing original fails with ENOENT
(in C: return -1 with errno = ENOENT; the model returns the errno). -/
def srename (fs : FS) (fdvol : Nat) (oldpath newpath : Path) : Int × FS :=
  if newpath = [] then (-1, fs)
  else
    match schdirparent fs fdvol oldpath with
    | none => (-1, fs)
    | some _ =>
      let dest := dirnameP oldpath ++ [newpath.getLastD ""]
      match fs.stat oldpath with
      | none => (ENOENT, fs)
      | some _ =>
        if oldpath = dest then (0, fs)
        else if pstarts oldpath dest || pstarts dest oldpath then (EINVAL, fs)
        else (0, renameApply fs oldpath dest)

/-- rval |= e accumulation over C ints, where the possible values are -1 and
nonnegative errno values (two-complement bitwise or of -1 with anything is
-1). -/
def orErr (a b : Int) : Int :=
  if a < 0 || b < 0 then -1 else Int.ofNat (a.toNat ||| b.toNat)

/-- Insertion into a list of filesystem entries that keeps longer (deeper)
paths in front. -/
def insertByLen (e : Path × FNode) :
    List (Path × FNode) → List (Path × FNode)
  | [] => [e]
  | x :: xs =>
    if x.1.length ≤ e.1.length then e :: x :: xs else x :: insertByLen e xs

/-- Deepest-first ordering of filesystem entries, standing for the
post-order position at which fts hands a directory (and the pre-order
position at which it hands a leaf) to the removal loop of sdeepunlink. -/
def sortByLen (l : List (Path × FNode)) : List (Path × FNode) :=
  l.foldr insertByLen []

/-- One fts entry of the sdeepunlink loop: a directory goes through srmdir
(post-order), anything else through sunlink, and the error accumulates into
rval with |=. -/
def sduStep (fdvol : Nat) (acc : Int × FS) (e : Path × FNode) : Int × FS :=
  let step :=
    if e.2.isDir then srmdir acc.2 fdvol e.1 else sunlink acc.2 fdvol e.1
  (orErr acc.1 step.1, step.2)

/-- sdeepunlink from safecalls.c: an fts traversal (FTS_PHYSICAL | FTS_XDEV)
of the subtree under path; every leaf goes through sunlink and every
directory through srmdir in post-order, each of which re-runs the
schdirparent device check against fdvol; errors accumulate with |=.  A
missing root reports ENOENT. -/
def sdeepunlink (fs : FS) (fdvol : Nat) (path : Path) : Int × FS :=
  match fs.stat path with
  | none => (ENOENT, fs)
  | some _ =>
    let subtree := fs.filter (fun e => pstarts path e.1)
    (sortByLen subtree).foldl (sduStep fdvol) (0, fs)

/-- sdeepmkdir from safecalls.c.  The source tests the existing node with

  if (sb.st_mode & S_IFDIR == 0) \x7b bsderr = ENOTDIR; ... \x7d

which C operator precedence parses as sb.st_mode & (S_IFDIR == 0); the
embedding transcribes that expression as written, so the ENOTDIR branch is
dead and any existing node yields success.  A missing path recurses on the
dirname (the stat miss is the ENOENT confirmation), then the top level is
created with smkdir. -/
def sdeepmkdirF : Nat → FS → Nat → Path → Nat → Int × FS
  | 0, fs, _, _, _ => (-1, fs)
  | fuel + 1, fs, fdvol, path, mode =>
    match fs.stat path with
    | some sb =>
      if sb.stmode &&& (if S_IFDIR = 0 then 1 else 0) ≠ 0 then (ENOTDIR, fs)
      else (0, fs)
    | none =>
      if path = [] then (-1, fs)
      else
        match sdeepmkdirF fuel fs fdvol (dirnameP path) mode with
        | (e, fs1) => if e ≠ 0 then (e, fs1) else smkdir fs1 fdvol path mode

/-- sdeepmkdir from safecalls.c.  The recursion steps from a path to its
dirname, so a fuel of one more than the component count always suffices and
the zero-fuel branch of sdeepmkdirF is unreachable. -/
def sdeepmkdir (fs : FS) (fdvol : Nat) (path : Path) (mode : Nat) : Int × FS :=
  sdeepmkdirF (path.length + 1) fs fdvol path mode

/-- The node update performed by the read/write loop and the final fchmod of
scopyfile: the destination receives the source bytes and, via fchmod, the
source permission bits. -/
def copiedNode (dst src : FNode) : FNode :=
  { dst with size := src.size, content := src.content,
             mode := src.stmode &&& 4095 }

/-- scopyfile from safecalls.c: open the source read-only through sopen
against srcfdvol; derive the intermediate-directory mode from the source
mode (u+wx forced, group/other execute added when the matching read bit is
set); sdeepmkdir the destination parent against dstfdvol; sunlink the
destination (ignoring errors); sopen it O_CREAT|O_WRONLY; copy the bytes
and apply the final mode. -/
def scopyfile (fs : FS) (srcfdvol : Nat) (srcpath : Path) (dstfdvol : Nat)
    (dstpath : Path) : Int × FS :=
  match (sopen fs srcfdvol srcpath O_RDONLY 0).1 with
  | none => (-1, fs)
  | some srcsb =>
    let dm0 := (srcsb.stmode &&& 4095) ||| S_IWUSR ||| S_IXUSR
    let dm1 := if dm0 &&& S_IRGRP ≠ 0 then dm0 ||| S_IXGRP else dm0
    let dirmode := if dm1 &&& S_IROTH ≠ 0 then dm1 ||| S_IXOTH else dm1
    match sdeepmkdir fs dstfdvol (dirnameP dstpath) dirmode with
    | (e, fs1) =>
      if e ≠ 0 then (-1, fs1)
      else
        let fs2 := (sunlink fs1 dstfdvol dstpath).2
        match sopen fs2 dstfdvol dstpath (O_CREAT ||| O_WRONLY)
            (srcsb.stmode ||| S_IWUSR) with
        | (none, fs3) => (-1, fs3)
        | (some _, fs3) =>
          (0, fs3.map (fun e =>
            if e.1 = dstpath then (e.1, copiedNode e.2 srcsb) else e))

/-! ### bootcaches.c: needsUpdate -/

/-- needsUpdate from bootcaches.c.  Returns (bsderr, outofdate, tstamps).
A missing source returns success with the out-of-date flag left unset
(modelled as none) and the captured timestamps untouched.  Otherwise the
source access and modification times are captured (tv_usec = tv_nsec/1000)
and the bootstamp is compared.  The staleness test transcribes source line

  ood = (tsb.st_mtimespec.tv_sec != rsb.st_mtimespec.tv_sec ||
         tsb.st_mtimespec.tv_nsec != tsb.st_mtimespec.tv_nsec);

exactly as written: the second disjunct compares tsb with itself.  A missing
bootstamp yields ood = true. -/
def needsUpdate (fs : FS) (root rpath tspath : Path) :
    Int × Option Bool × Option ((Nat × Nat) × (Nat × Nat)) :=
  let fullrp := root ++ rpath
  let fulltsp := root ++ tspath
  match fs.stat fullrp with
  | none => (0, none, none)
  | some rsb =>
    let ts := ((rsb.atimeSec, rsb.atimeNsec / 1000),
               (rsb.mtimeSec, rsb.mtimeNsec / 1000))
    match fs.stat fulltsp with
    | some tsb =>
      let ood := decide (tsb.mtimeSec ≠ rsb.mtimeSec)
                 || decide (tsb.mtimeNsec ≠ tsb.mtimeNsec)
      (0, some ood, some ts)
    | none => (0, some true, some ts)

/-! ### update_boot.c: FindRPSDir -/

def kBootDirR : String := "com.apple.boot.R"
def kBootDirP : String := "com.apple.boot.P"
def kBootDirS : String := "com.apple.boot.S"

/-- FindRPSDir from update_boot.c: given which of the three rotation
directories stat successfully under the helper mount, pick (previous,
current, next) with the if-chain of the source.  curMount is the helper
mount point; each output is curMount ++ "/" ++ name. -/
def FindRPSDir (curMount : String) (haveR haveP haveS : Bool) :
    String × String × String :=
  let rpath := curMount ++ "/" ++ kBootDirR
  let ppath := curMount ++ "/" ++ kBootDirP
  let spath := curMount ++ "/" ++ kBootDirS
  if haveR && haveP && haveS then (spath, rpath, ppath)
  else if haveR && haveP then (rpath, ppath, spath)
  else if haveR && haveS then (spath, rpath, ppath)
  else if haveP && haveS then (ppath, spath, rpath)
  else if haveR then (spath, rpath, ppath)
  else if haveP then (rpath, ppath, spath)
  else if haveS then (ppath, spath, rpath)
  else (spath, rpath, ppath)

/-- The fixed rotation order R -> P -> S -> R of the spec. -/
def cycNext (n : String) : String :=
  if n = kBootDirR then kBootDirP
  else if n = kBootDirP then kBootDirS
  else if n = kBootDirS then kBootDirR
  else ""

/-! ### update_boot.c: updateBoots commit logic -/

/-- The helper loop and bootstamp commit of updateBoots (update_boot.c,
from the Apple_Boot enumeration onward).  helperOK lists, in order, whether
each mounted helper partition completed its update (one entry per element
of up.boots; a success increments bootupdates).  applyOK is the outcome of
applyStamps.  Returns (stampsApplied, rval): whether applyStamps was
invoked, and the functions return value (0 success, ELAST1 failure).  An
empty helper array returns success early without touching stamps. -/
def updateBoots (helperOK : List Bool) (applyOK : Bool) : Bool × Int :=
  if helperOK.length = 0 then (false, 0)
  else
    let bootupdates := (helperOK.filter (fun b => b)).length
    if bootupdates ≠ helperOK.length then (false, ELAST1)
    else if applyOK then (true, 0) else (true, ELAST1)

/-! ### update_boot.c: struct updatingVol, booter staging and activation -/

/-- enum bootReversions from update_boot.c. -/
inductive BootRev where
  | nothingSerious
  | nukedLabels
  | copyingOFBooter
  | copyingEFIBooter
  | copiedBooters
  | activatingOFBooter
  | activatingEFIBooter
  | activatedBooters
deriving DecidableEq, Repr

/-- The relevant fields of struct updatingVol: the helper mount point, the
helper scope descriptor (curbootfd), the host scope descriptor (cachefd),
the host volume root, the two booter relative paths ([] when the
bootcaches have no such entry, mirroring rpath[0] == 0), and the staged
destination paths filled in by ucopyBooters. -/
structure UpVol where
  curMount : Path
  curbootfd : Nat
  cachefd : Nat
  root : Path
  ofrpath : Path
  efirpath : Path
  ofdst : Path
  efidst : Path
deriving DecidableEq, Repr

def OLDEXT : String := ".old"

/-- fsetxattr(XATTR_FINDERINFO_NAME, tag) on the node at path. -/
def setxattrAt (fs : FS) (path : Path) (tag : Nat) : FS :=
  fs.map (fun e => if e.1 = path then (e.1, { e.2 with xattr := tag }) else e)

/-- The finder-info tag written onto a booter: tbxi/chrp. -/
def tagTbxiChrp : Nat := 1

/-- The EFI-booter half of ucopyBooters (the block below the
changestate = copyingEFIBooter assignment).  The rename of the live booter
to its .old name tolerates ENOENT here: the source tests
srename(...) && errno != ENOENT. -/
def ucopyBootersEFI (fs : FS) (up : UpVol) : Int × FS × UpVol × BootRev :=
  if up.efirpath ≠ [] then
    let up2 := { up with efidst := up.curMount ++ up.efirpath }
    let srcpath := up.root ++ up.efirpath
    let oldpath := addExt up2.efidst OLDEXT
    let fsA := (sunlink fs up.curbootfd oldpath).2
    let r := srename fsA up.curbootfd up2.efidst oldpath
    if r.1 ≠ 0 && r.1 ≠ ENOENT then (ELAST1, r.2, up2, BootRev.copyingEFIBooter)
    else
      let c := scopyfile r.2 up.cachefd srcpath up.curbootfd up2.efidst
      if c.1 ≠ 0 then (ELAST1, c.2, up2, BootRev.copyingEFIBooter)
      else (0, c.2, up2, BootRev.copiedBooters)
  else (0, fs, up, BootRev.copiedBooters)

/-- ucopyBooters from update_boot.c: for each present booter, unlink any
stale .old name, rename the live booter to .old, and copy the source booter
into place.  In the OF block the source tests the rename with a bare
if (srename(...)) goto finish; — no ENOENT tolerance — while the EFI block
tolerates ENOENT (see ucopyBootersEFI).  Returns (rval, fs, updated vol,
changestate). -/
def ucopyBooters (fs : FS) (up : UpVol) : Int × FS × UpVol × BootRev :=
  if up.ofrpath ≠ [] then
    let up1 := { up with ofdst := up.curMount ++ up.ofrpath }
    let srcpath := up.root ++ up.ofrpath
    let oldpath := addExt up1.ofdst OLDEXT
    let fsA := (sunlink fs up.curbootfd oldpath).2
    let r := srename fsA up.curbootfd up1.ofdst oldpath
    if r.1 ≠ 0 then (ELAST1, r.2, up1, BootRev.copyingOFBooter)
    else
      let c := scopyfile r.2 up.cachefd srcpath up.curbootfd up1.ofdst
      if c.1 ≠ 0 then (ELAST1, c.2, up1, BootRev.copyingOFBooter)
      else ucopyBootersEFI c.2 up1
  else ucopyBootersEFI fs up

/-- activateBooters from update_boot.c.  Returns (rval, fs, changestate,
(vinfo pair, blessed)); the vinfo pair is (system-folder inode, EFI-booter
inode) and blessed records whether BLSetVolumeFinderInfo ran.  The OF block
transcribes the source lines

  pathcpy(parent, dirname(up->ofdst));		    goto finish;

faithfully: after the fsync and the type/creator attribute, the bare goto
exits the function with rval still ELAST + 1, so with an OF booter present
the finder-info write is never reached.  F_FULLFSYNC and fsetxattr on an
open descriptor are modelled as succeeding. -/
def activateBooters (fs : FS) (up : UpVol) :
    Int × FS × BootRev × ((Nat × Nat) × Bool) :=
  if up.ofrpath ≠ [] then
    match (sopen fs up.curbootfd up.ofdst O_RDWR 0).1 with
    | none => (ELAST1, fs, BootRev.activatingOFBooter, ((0, 0), false))
    | some _ =>
      let fs1 := setxattrAt fs up.ofdst tagTbxiChrp
      (ELAST1, fs1, BootRev.activatingOFBooter, ((0, 0), false))
  else
    -- changestate = activatingEFIBooter
    if up.efirpath ≠ [] then
      match (sopen fs up.curbootfd up.efidst O_RDONLY 0).1 with
      | none => (ELAST1, fs, BootRev.activatingEFIBooter, ((0, 0), false))
      | some esb =>
        -- vinfo[kEFIBooterIdx] = sb.st_ino; vinfo[0] is still 0, so the
        -- enclosing folder of the EFI booter becomes the blessed folder
        match (sopen fs up.curbootfd (dirnameP up.efidst) O_RDONLY 0).1 with
        | none => (ELAST1, fs, BootRev.activatingEFIBooter, ((0, 0), false))
        | some psb =>
          -- schdir to the helper root, BLSetVolumeFinderInfo(".", vinfo)
          match fs.stat up.curMount with
          | none => (ELAST1, fs, BootRev.activatingEFIBooter, ((0, 0), false))
          | some mnode =>
            if spolicy up.curbootfd mnode.dev ≠ 0 || ¬ mnode.isDir then
              (ELAST1, fs, BootRev.activatingEFIBooter, ((0, 0), false))
            else
              (0, fs, BootRev.activatedBooters, ((psb.ino, esb.ino), true))
    else
      match fs.stat up.curMount with
      | none => (ELAST1, fs, BootRev.activatingEFIBooter, ((0, 0), false))
      | some mnode =>
        if spolicy up.curbootfd mnode.dev ≠ 0 || ¬ mnode.isDir then
          (ELAST1, fs, BootRev.activatingEFIBooter, ((0, 0), false))
        else
          (0, fs, BootRev.activatedBooters, ((0, 0), true))

/-! ### bootcaches.c: parseDict -/

/-- Core-foundation property-list values: strings, arrays, dictionaries,
and a representative foreign type (numbers) for the wrong-type branches. -/
inductive CFVal where
  | str (s : String)
  | arr (a : List CFVal)
  | dict (d : List (String × CFVal))
  | num (n : Int)
deriving Repr

/-- CFDictionaryGetValue on the association-list dictionary model. -/
def dlookup (d : List (String × CFVal)) (k : String) : Option CFVal :=
  (d.find? (fun e => e.1 = k)).map (fun e => e.2)

/-- Keys of a dictionary. -/
def dkeys (d : List (String × CFVal)) : List String :=
  d.map (fun e => e.1)

def kBCPreBootKey : String := "PreBootPaths"
def kBCLabelKey : String := "DiskLabel"
def kBCBootersKey : String := "BooterPaths"
def kBCEFIBooterKey : String := "EFIBooter"
def kBCPostBootKey : String := "PostBootPaths"
def kBCMKextKey : String := "MKext"
def kBCArchsKey : String := "Archs"
def kBCExtensionsDirKey : String := "ExtensionsDir"
def kBCPathKey : String := "Path"
def kBCAdditionalPathsKey : String := "AdditionalPaths"
def kBCBootConfigKey : String := "BootConfig"

/-- The per-element loop over an AdditionalPaths array: every element must
be a string (CFGetTypeID check), and each one becomes a cachedPath. -/
def elemStrings : List CFVal → Option (List String)
  | [] => some []
  | CFVal.str s :: rest => (elemStrings rest).map (fun l => s :: l)
  | _ => none

/-- Result of the PreBootPaths block of parseDict: the net keyCount change,
the misc paths in the order the source fills miscpaths, the DiskLabel
back-reference, and nmisc as the source computes it. -/
structure PreBootRes where
  kcDelta : Int
  miscpaths : List String
  label : Option String
  nmisc : Int
deriving DecidableEq, Repr

/-- The PreBootPaths block of parseDict: an absent key contributes nothing;
a present non-dictionary aborts; otherwise keyCount grows by the sub-dict
key count, AdditionalPaths (array of strings) and DiskLabel (string) each
consume one key when present, and the PreBootPaths key itself is consumed
at the end of the block. -/
def parsePreBoot (v : Option CFVal) : Option PreBootRes :=
  match v with
  | none => some { kcDelta := 0, miscpaths := [], label := none, nmisc := 0 }
  | some (CFVal.dict d) =>
    let nmisc0 : Int := d.length
    match dlookup d kBCAdditionalPathsKey with
    | some (CFVal.arr a) =>
      match elemStrings a with
      | none => none
      | some misc0 =>
        let nmisc1 : Int := nmisc0 + a.length - 1
        match dlookup d kBCLabelKey with
        | some (CFVal.str s) =>
          some { kcDelta := (d.length : Int) - 1 - 1 - 1,
                 miscpaths := misc0 ++ [s], label := some s, nmisc := nmisc1 }
        | some _ => none
        | none =>
          some { kcDelta := (d.length : Int) - 1 - 1,
                 miscpaths := misc0, label := none, nmisc := nmisc1 }
    | some _ => none
    | none =>
      match dlookup d kBCLabelKey with
      | some (CFVal.str s) =>
        some { kcDelta := (d.length : Int) - 1 - 1,
               miscpaths := [s], label := some s, nmisc := nmisc0 }
      | some _ => none
      | none =>
        some { kcDelta := (d.length : Int) - 1,
               miscpaths := [], label := none, nmisc := nmisc0 }
  | some _ => none

/-- The BooterPaths block of parseDict: EFIBooter (string) is the only
recognized key; the OFBooter block is commented out in the source, so its
key is never consumed and the ofbooter path is never filled in.  Returns
(net keyCount change, efibooter path). -/
def parseBooters (v : Option CFVal) : Option (Int × String) :=
  match v with
  | none => some (0, "")
  | some (CFVal.dict d) =>
    match dlookup d kBCEFIBooterKey with
    | some (CFVal.str s) => some ((d.length : Int) - 1 - 1, s)
    | some _ => none
    | none => some ((d.length : Int) - 1, "")
  | some _ => none

/-- Result of the PostBootPaths block: net keyCount change, rps paths in
source order, BootConfig and MKext back-references, ExtensionsDir, nrps. -/
structure PostBootRes where
  kcDelta : Int
  rpspaths : List String
  bootconfig : Option String
  mkext : Option String
  exts : String
  nrps : Int
deriving DecidableEq, Repr

/-- The MKext sub-dictionary handling inside the PostBootPaths block.  The
source fetches Path with no null check before CFGetTypeID, so an absent or
non-string Path aborts; ExtensionsDir is optional but must be a string;
Archs is read later from the retained descriptor, not here, and the MKext
sub-dictionary key count is never added to keyCount. -/
def parseMKext (v : Option CFVal) : Option (Int × Option String × String) :=
  match v with
  | none => some (0, none, "")
  | some (CFVal.dict mk) =>
    match dlookup mk kBCPathKey with
    | some (CFVal.str s) =>
      match dlookup mk kBCExtensionsDirKey with
      | some (CFVal.str e) => some (1, some s, e)
      | some _ => none
      | none => some (1, some s, "")
    | _ => none
  | some _ => none

/-- The PostBootPaths block of parseDict: AdditionalPaths (array of
strings), BootConfig (string) and MKext (dictionary) each consume one key
when present; the PostBootPaths key itself is consumed at the end. -/
def parsePostBoot (v : Option CFVal) : Option PostBootRes :=
  match v with
  | none =>
    some { kcDelta := 0, rpspaths := [], bootconfig := none, mkext := none,
           exts := "", nrps := 0 }
  | some (CFVal.dict d) =>
    let nrps0 : Int := d.length
    let withA :=
      match dlookup d kBCAdditionalPathsKey with
      | some (CFVal.arr a) =>
        match elemStrings a with
        | none => none
        | some rps0 => some (rps0, (1 : Int), nrps0 + a.length - 1)
      | some _ => none
      | none => some (([] : List String), (0 : Int), nrps0)
    match withA with
    | none => none
    | some (rps0, kcA, nrps1) =>
      let withB :=
        match dlookup d kBCBootConfigKey with
        | some (CFVal.str s) => some (rps0 ++ [s], some s, (1 : Int))
        | some _ => none
        | none => some (rps0, none, (0 : Int))
      match withB with
      | none => none
      | some (rps1, bc, kcB) =>
        match parseMKext (dlookup d kBCMKextKey) with
        | none => none
        | some (kcM, mk, exts) =>
          let rps2 := match mk with
                      | some s => rps1 ++ [s]
                      | none => rps1
          some { kcDelta := (d.length : Int) - kcA - kcB - kcM - 1,
                 rpspaths := rps2, bootconfig := bc, mkext := mk,
                 exts := exts, nrps := nrps1 }
  | some _ => none

/-- struct bootCaches as parseDict fills it in (calloc zeroes every field,
so ofbooter starts and stays as the empty path). -/
structure BootCachesS where
  root : String
  volUUIDStr : String
  volname : String
  exts : String
  nrps : Int
  rpspaths : List String
  nmisc : Int
  miscpaths : List String
  efibooter : String
  ofbooter : String
  mkext : Option String
  bootconfig : Option String
  label : Option String
deriving DecidableEq, Repr

/-- parseDict from bootcaches.c: keyCount starts at the top-level key
count, each block adds its sub-dictionary count and subtracts one per
consumed key, and a nonzero residue rejects the descriptor as containing
unknown (assumed required) keys. -/
def parseDict (bcDict : List (String × CFVal))
    (rootpath volUUIDStr volname : String) : Option BootCachesS :=
  match parsePreBoot (dlookup bcDict kBCPreBootKey) with
  | none => none
  | some pb =>
    match parseBooters (dlookup bcDict kBCBootersKey) with
    | none => none
    | some bt =>
      match parsePostBoot (dlookup bcDict kBCPostBootKey) with
      | none => none
      | some po =>
        let keyCount : Int :=
          (bcDict.length : Int) + pb.kcDelta + bt.1 + po.kcDelta
        if keyCount ≠ 0 then none
        else
          some { root := rootpath, volUUIDStr := volUUIDStr,
                 volname := volname, exts := po.exts, nrps := po.nrps,
                 rpspaths := po.rpspaths, nmisc := pb.nmisc,
                 miscpaths := pb.miscpaths, efibooter := bt.2,
                 ofbooter := "", mkext := po.mkext,
                 bootconfig := po.bootconfig, label := pb.label }

/-- The caches->XXbooter.rpath[0] guard used by ucopyBooters,
activateBooters, revertState and nukeFallbacks: a booter takes part in the
update only when its relative path is nonempty. -/
def rpathPresent (s : String) : Bool := s ≠ ""

/-- Split a flat relative path into components, the convention linking the
strings of struct bootCaches to the Path model ("" maps to []). -/
def splitPath (s : String) : Path :=
  ((s.data.splitOnP (fun c => c = Char.ofNat 47)).map String.mk).filter
    (fun c => c ≠ "")

/-! ## Shared lemmas -/

theorem stat_mem {fs : FS} {p : Path} {n : FNode} (h : fs.stat p = some n) :
    (p, n) ∈ fs := by
  unfold FS.stat at h
  rcases hf : fs.find? (fun e => e.1 = p) with _ | e
  · rw [hf] at h; simp at h
  · rw [hf] at h
    simp at h
    have hm := List.mem_of_find?_eq_some hf
    have hp := List.find?_some hf
    simp at hp
    rcases e with ⟨q, m⟩
    simp at hp h
    rw [← hp, ← h]
    exact hm

theorem stat_none_iff {fs : FS} {p : Path} :
    fs.stat p = none ↔ ∀ e ∈ fs, e.1 ≠ p := by
  unfold FS.stat
  constructor
  · intro h e he
    rcases hf : fs.find? (fun e => e.1 = p) with _ | x
    · have := List.find?_eq_none.mp hf e he
      simpa using this
    · rw [hf] at h; simp at h
  · intro h
    have : fs.find? (fun e => e.1 = p) = none := by
      apply List.find?_eq_none.mpr
      intro e he
      simpa using h e he
    rw [this]
    rfl

theorem pstarts_refl (p : Path) : pstarts p p = true := by
  simp [pstarts]

theorem pstarts_append_iff {pre p : Path} :
    pstarts pre p = true ↔ ∃ t, p = pre ++ t := by
  unfold pstarts
  simp only [decide_eq_true_eq]
  constructor
  · intro h
    refine ⟨p.drop pre.length, ?_⟩
    conv_lhs => rw [← List.take_append_drop pre.length p]
    rw [h]
  · rintro ⟨t, rfl⟩
    exact List.take_left pre t

theorem dropLast_append_ne {α : Type} (l t : List α) (h : t ≠ []) :
    (l ++ t).dropLast = l ++ t.dropLast := by
  induction l with
  | nil => simp
  | cons a l ih =>
    rcases e : l ++ t with _ | ⟨x, xs⟩
    · rcases List.append_eq_nil.mp e with ⟨_, h2⟩
      exact absurd h2 h
    · rw [List.cons_append, e, List.dropLast_cons₂, ← e, ih, List.cons_append]

theorem pstarts_dropLast_of {path q : Path} (h : pstarts path q = true)
    (hne : q ≠ path) : pstarts path (dirnameP q) = true := by
  rcases pstarts_append_iff.mp h with ⟨t, rfl⟩
  rcases ht : t with _ | ⟨x, xs⟩
  · simp [ht] at hne
  · rw [← ht]
    have : t ≠ [] := by simp [ht]
    unfold dirnameP
    rw [dropLast_append_ne path t this]
    exact pstarts_append_iff.mpr ⟨t.dropLast, rfl⟩

theorem schdirparent_none_of {fs : FS} {fdvol : Nat} {path : Path} {pn : FNode}
    (hp : fs.stat (dirnameP path) = some pn) (hdev : pn.dev ≠ fdvol) :
    schdirparent fs fdvol path = none := by
  unfold schdirparent
  rcases he : path with _ | ⟨a, t⟩
  · simp
  · rw [← he]
    have hne : path ≠ [] := by simp [he]
    rw [if_neg hne, hp]
    have : spolicy fdvol pn.dev ≠ 0 := by
      unfold spolicy
      rw [if_pos (fun hc => hdev hc.symm)]
      simp [EPERM]
    dsimp only
    rw [if_pos this]

theorem schdirparent_eq_some {fs : FS} {fdvol : Nat} {q : Path} {m : FNode}
    (h : schdirparent fs fdvol q = some m) :
    fs.stat (dirnameP q) = some m ∧ fdvol = m.dev := by
  unfold schdirparent at h
  by_cases hq : q = []
  · rw [if_pos hq] at h; simp at h
  · rw [if_neg hq] at h
    rcases hs : fs.stat (dirnameP q) with _ | st
    · rw [hs] at h; simp at h
    · rw [hs] at h
      dsimp only at h
      by_cases hsp : spolicy fdvol st.dev ≠ 0
      · rw [if_pos hsp] at h; simp at h
      · rw [if_neg hsp] at h
        unfold spolicy at hsp
        by_cases hd : fdvol ≠ st.dev
        · rw [if_pos hd] at hsp; simp [EPERM] at hsp
        · push_neg at hd
          by_cases hdir : st.isDir
          · rw [if_pos hdir] at h
            simp at h
            exact ⟨congrArg some h, by rw [← h]; exact hd⟩
          · rw [if_neg hdir] at h; simp at h

theorem filterTrueLen {l : List Bool} :
    ((l.filter (fun b => b)).length = l.length) ↔ (∀ b ∈ l, b = true) := by
  induction l with
  | nil => simp
  | cons a t ih =>
    cases a
    · simp only [List.filter_cons]
      have hle := List.length_filter_le (fun b => b) t
      constructor
      · intro h1
        simp at h1
        omega
      · intro h1
        have := h1 false (by simp)
        simp at this
    · simp only [List.filter_cons]
      simp [ih]

theorem orErr_ne_zero_right {a b : Int} (hb : b ≠ 0) : orErr a b ≠ 0 := by
  unfold orErr
  by_cases hc : a < 0 || b < 0
  · rw [if_pos hc]; simp
  · rw [if_neg hc]
    simp only [Bool.or_eq_true, decide_eq_true_eq, not_or] at hc
    push_neg at hc
    intro hz
    have h0 : a.toNat ||| b.toNat = 0 := by
      have := Int.ofNat_eq_zero.mp hz
      exact this
    have hbt : b.toNat ≠ 0 := by
      intro h
      rcases Int.toNat_eq_zero.mp h with h2
      omega
    have : b.toNat = 0 := by
      have h1 : ∀ i, (a.toNat ||| b.toNat).testBit i = false := by
        intro i; rw [h0]; exact Nat.zero_testBit i
      apply Nat.eq_of_testBit_eq
      intro i
      have := h1 i
      rw [Nat.testBit_or] at this
      rcases Bool.or_eq_false_iff.mp this with ⟨_, hbi⟩
      rw [hbi]
      exact (Nat.zero_testBit i).symm
    exact hbt this

/-! ## Claim C1: the staleness comparison of needsUpdate -/

/-- A source file with modification time 100 s + 5 ns. -/
def c1src : FNode :=
  { isDir := false, dev := 1, ino := 10, mode := 420, size := 5, content := 7,
    xattr := 0, mtimeSec := 100, mtimeNsec := 5, atimeSec := 1, atimeNsec := 0 }

/-- A bootstamp with the same seconds but different nanoseconds (100 s + 7 ns). -/
def c1stamp : FNode :=
  { isDir := false, dev := 1, ino := 11, mode := 420, size := 0, content := 0,
    xattr := 0, mtimeSec := 100, mtimeNsec := 7, atimeSec := 1, atimeNsec := 0 }

def c1dir : FNode :=
  { isDir := true, dev := 1, ino := 2, mode := 493, size := 0, content := 0,
    xattr := 0, mtimeSec := 0, mtimeNsec := 0, atimeSec := 0, atimeNsec := 0 }

def c1fs : FS :=
  [([], c1dir), (["f"], c1src), (["ts"], { c1dir with ino := 3 }),
   (["ts", "f"], c1stamp)]

/-- C1.  The claim states that with both the source and the bootstamp
present, needsUpdate reports stale iff the modification times differ in the
seconds or in the nanoseconds field.  The code compares only the seconds:
line 466 of bootcaches.c compares tsb.st_mtimespec.tv_nsec with itself, so
on this input — equal seconds, nanoseconds 5 versus 7 — the staleness flag
comes back false even though the nanoseconds differ, contradicting the
claim.  (The second and third conjuncts exhibit the differing nanosecond
fields; the last is the evaluation of the embedded code.) -/
theorem c1_needsUpdate_nsec_compared_to_itself :
    (FS.stat c1fs ["f"]).map (fun n => (n.mtimeSec, n.mtimeNsec))
      = some (100, 5) ∧
    (FS.stat c1fs ["ts", "f"]).map (fun n => (n.mtimeSec, n.mtimeNsec))
      = some (100, 7) ∧
    needsUpdate c1fs [] ["f"] ["ts", "f"]
      = (0, some false, some ((1, 0), (100, 0))) := by
  decide

/-! ## Claim C2: FindRPSDir rotation selection -/

/-- C2.  The (previous, current, next) triple FindRPSDir selects for each
of the eight subsets of present rotation directories, with the claimed
reading: all three present picks R current, P next, S previous; exactly two
present picks as current the one that is the cyclic successor of the other
(the later of the two in the rotation (R, P, S)) and the missing name as
next; exactly one present picks it as current, its cyclic successor (the
fixed order R to P to S to R, written cycNext) as next, and the third as
previous; none present picks R current, P next, S previous. -/
theorem c2_FindRPSDir_selection (m : String) :
    FindRPSDir m true true true
      = (m ++ "/" ++ kBootDirS, m ++ "/" ++ kBootDirR, m ++ "/" ++ kBootDirP) ∧
    FindRPSDir m true true false
      = (m ++ "/" ++ kBootDirR, m ++ "/" ++ cycNext kBootDirR,
         m ++ "/" ++ kBootDirS) ∧
    FindRPSDir m true false true
      = (m ++ "/" ++ kBootDirS, m ++ "/" ++ cycNext kBootDirS,
         m ++ "/" ++ kBootDirP) ∧
    FindRPSDir m false true true
      = (m ++ "/" ++ kBootDirP, m ++ "/" ++ cycNext kBootDirP,
         m ++ "/" ++ kBootDirR) ∧
    FindRPSDir m true false false
      = (m ++ "/" ++ kBootDirS, m ++ "/" ++ kBootDirR,
         m ++ "/" ++ cycNext kBootDirR) ∧
    FindRPSDir m false true false
      = (m ++ "/" ++ kBootDirR, m ++ "/" ++ kBootDirP,
         m ++ "/" ++ cycNext kBootDirP) ∧
    FindRPSDir m false false true
      = (m ++ "/" ++ kBootDirP, m ++ "/" ++ kBootDirS,
         m ++ "/" ++ cycNext kBootDirS) ∧
    FindRPSDir m false false false
      = (m ++ "/" ++ kBootDirS, m ++ "/" ++ kBootDirR, m ++ "/" ++ kBootDirP)
    := by
  refine ⟨rfl, ?_, ?_, ?_, ?_, ?_, ?_, rfl⟩ <;>
    simp [FindRPSDir, cycNext, kBootDirR, kBootDirP, kBootDirS]

/-- C2 witness: the selection at a concrete helper mount with only R
present. -/
theorem c2_FindRPSDir_selection_witness :
    FindRPSDir "/V" true false false
      = ("/V/com.apple.boot.S", "/V/com.apple.boot.R", "/V/com.apple.boot.P")
    := by
  have h := (c2_FindRPSDir_selection "/V").2.2.2.2.1
  rw [h]
  decide

/-! ## Claim C4: updateBoots writes bootstamps iff every helper succeeded -/

/-- C4.  applyStamps is invoked iff every helper update in the loop
succeeded, and any failed helper leaves the stamps unwritten and makes
updateBoots return failure. -/
theorem c4_updateBoots_stamps_iff_all_helpers
    (helperOK : List Bool) (applyOK : Bool) (h : helperOK ≠ []) :
    ((updateBoots helperOK applyOK).1 = true ↔ ∀ b ∈ helperOK, b = true) ∧
    ((∃ b ∈ helperOK, b = false) →
      (updateBoots helperOK applyOK).1 = false ∧
      (updateBoots helperOK applyOK).2 ≠ 0) := by
  have hlen : ¬ helperOK.length = 0 := fun hh => h (List.length_eq_zero.mp hh)
  by_cases hall : ∀ b ∈ helperOK, b = true
  · have hf : (helperOK.filter (fun b => b)).length = helperOK.length :=
      filterTrueLen.mpr hall
    have heq : updateBoots helperOK applyOK
        = (if applyOK then (true, 0) else (true, ELAST1)) := by
      unfold updateBoots
      rw [if_neg hlen, if_neg (by rw [hf]; simp)]
    constructor
    · cases applyOK <;> (rw [heq]; exact iff_of_true rfl hall)
    · rintro ⟨b, hb, hbf⟩
      have := hall b hb
      rw [this] at hbf
      exact absurd hbf (by simp)
  · have hf : (helperOK.filter (fun b => b)).length ≠ helperOK.length :=
      fun hc => hall (filterTrueLen.mp hc)
    have heq : updateBoots helperOK applyOK = (false, ELAST1) := by
      unfold updateBoots
      rw [if_neg hlen, if_pos hf]
    constructor
    · rw [heq]
      exact iff_of_false (by simp) hall
    · intro _
      rw [heq]
      exact ⟨rfl, by norm_num [ELAST1]⟩

/-- C4 witness: two helpers, the second fails; the stamps are not applied
and the run reports failure. -/
theorem c4_updateBoots_stamps_witness :
    (updateBoots [true, false] true).1 = false ∧
    (updateBoots [true, false] true).2 ≠ 0 :=
  (c4_updateBoots_stamps_iff_all_helpers [true, false] true (by decide)).2
    ⟨false, by decide, rfl⟩

/-! ## Claim C6: sdeepmkdir on an existing non-directory -/

def c6dir : FNode :=
  { isDir := true, dev := 1, ino := 2, mode := 493, size := 0, content := 0,
    xattr := 0, mtimeSec := 0, mtimeNsec := 0, atimeSec := 0, atimeNsec := 0 }

def c6file : FNode :=
  { isDir := false, dev := 1, ino := 5, mode := 420, size := 3, content := 9,
    xattr := 0, mtimeSec := 0, mtimeNsec := 0, atimeSec := 0, atimeNsec := 0 }

def c6fs : FS :=
  [([], c6dir), (["d"], { c6dir with ino := 3 }), (["d", "f"], c6file)]

/-- C6.  The claim says an existing non-directory component makes
sdeepmkdir fail with ENOTDIR.  In the source the test
sb.st_mode & S_IFDIR == 0 parses as sb.st_mode & (S_IFDIR == 0), which is
always zero, so the ENOTDIR branch is dead: on the regular file d/f the
call returns success (first two conjuncts).  The remaining conjuncts check
the two behaviours the claim gets right: an existing directory returns
success, and a missing path recurses on the parent and creates it. -/
theorem c6_sdeepmkdir_enotdir_branch_dead :
    (FS.stat c6fs ["d", "f"]).map (fun n => n.isDir) = some false ∧
    sdeepmkdir c6fs 1 ["d", "f"] 493 = (0, c6fs) ∧
    sdeepmkdir c6fs 1 ["d"] 493 = (0, c6fs) ∧
    (sdeepmkdir c6fs 1 ["d", "new"] 493).1 = 0 ∧
    ((sdeepmkdir c6fs 1 ["d", "new"] 493).2.stat ["d", "new"]).isSome = true
    := by
  decide

/-! ## Claim C9: sopen forces O_EXCL whenever O_CREAT is requested -/

/-- C9.  The flags sopen hands to the underlying open always contain
O_EXCL when O_CREAT was requested. -/
theorem c9_sopen_forces_excl (flags : Nat) (h : flags &&& O_CREAT ≠ 0) :
    sopenFlags flags &&& O_EXCL = O_EXCL := by
  unfold sopenFlags
  rw [if_pos h]
  have h2 : O_EXCL = 2 ^ 11 := by norm_num [O_EXCL]
  rw [h2, Nat.and_two_pow, Nat.testBit_lor, Nat.testBit_two_pow_self]
  simp

/-- C9 witness: a request of exactly O_CREAT. -/
theorem c9_sopen_forces_excl_witness :
    sopenFlags O_CREAT &&& O_EXCL = O_EXCL :=
  c9_sopen_forces_excl O_CREAT (by decide)

/-! ## Claim C3: activateBooters and the stray goto in the OF block -/

def c3mnt : FNode :=
  { isDir := true, dev := 2, ino := 7, mode := 493, size := 0, content := 0,
    xattr := 0, mtimeSec := 0, mtimeNsec := 0, atimeSec := 0, atimeNsec := 0 }

def c3sl : FNode := { c3mnt with ino := 8 }

def c3of : FNode :=
  { isDir := false, dev := 2, ino := 20, mode := 420, size := 6, content := 3,
    xattr := 0, mtimeSec := 0, mtimeNsec := 0, atimeSec := 0, atimeNsec := 0 }

def c3efi : FNode := { c3of with ino := 21, content := 4 }

/-- A healthy helper: mount point, the CoreServices directory, and both
freshly copied booters, all on the helper device. -/
def c3fs : FS :=
  [(["vb"], c3mnt), (["vb", "SLCS"], c3sl), (["vb", "SLCS", "BootX"], c3of),
   (["vb", "SLCS", "boot.efi"], c3efi)]

def c3upOF : UpVol :=
  { curMount := ["vb"], curbootfd := 2, cachefd := 1, root := [],
    ofrpath := ["SLCS", "BootX"], efirpath := ["SLCS", "boot.efi"],
    ofdst := ["vb", "SLCS", "BootX"], efidst := ["vb", "SLCS", "boot.efi"] }

def c3upEFI : UpVol := { c3upOF with ofrpath := [] }

set_option maxHeartbeats 2000000 in
/-- C3.  The claim says that with an OF booter present activateBooters
still reaches the finder-info write on the success path.  On this healthy
helper the OF booter opens fine (first conjunct), yet the function returns
ELAST + 1 in state activatingOFBooter with no finder-info write (second
conjunct): the source line
pathcpy(parent, dirname(up->ofdst)); goto finish; exits unconditionally
right after the type/creator attribute is applied.  With no OF booter the
same helper reaches the write and blesses the (system-folder inode,
EFI-booter inode) pair (8, 21) in state activatedBooters (third conjunct),
which is the behaviour the claim describes. -/
theorem c3_activateBooters_of_block_never_blesses :
    (sopen c3fs 2 ["vb", "SLCS", "BootX"] O_RDWR 0).1.isSome = true ∧
    activateBooters c3fs c3upOF
      = (ELAST1, setxattrAt c3fs ["vb", "SLCS", "BootX"] tagTbxiChrp,
         BootRev.activatingOFBooter, ((0, 0), false)) ∧
    activateBooters c3fs c3upEFI
      = (0, c3fs, BootRev.activatedBooters, ((8, 21), true)) :=
  ⟨by decide, by decide, by decide⟩

/-! ## Claim C7: booter staging tolerance for a missing original -/

theorem srename_missing_old {fs : FS} {fdvol : Nat} {old newp : Path}
    (h : fs.stat old = none) :
    (srename fs fdvol old newp).1 ≠ 0 ∧ (srename fs fdvol old newp).2 = fs := by
  unfold srename
  by_cases hn : newp = []
  · rw [if_pos hn]
    exact ⟨by norm_num, rfl⟩
  · rw [if_neg hn]
    rcases hs : schdirparent fs fdvol old with _ | pn
    · exact ⟨by norm_num, rfl⟩
    · dsimp only
      rw [h]
      exact ⟨by norm_num [ENOENT], rfl⟩

theorem stat_filter_none {fs : FS} {p : Path} (q : Path × FNode → Bool)
    (h : fs.stat p = none) : FS.stat (fs.filter q) p = none := by
  rw [stat_none_iff] at h ⊢
  intro e he
  exact h e (List.mem_of_mem_filter he)

theorem sunlink_snd_stat_none {fs : FS} {fdvol : Nat} {q p : Path}
    (h : fs.stat p = none) : ((sunlink fs fdvol q).2).stat p = none := by
  unfold sunlink
  rcases hs : schdirparent fs fdvol q with _ | pn
  · exact h
  · dsimp only
    rcases ht : fs.stat q with _ | st
    · exact h
    · dsimp only
      by_cases hd : st.isDir
      · rw [if_pos hd]; exact h
      · rw [if_neg hd]; exact stat_filter_none _ h

def c7host : FNode :=
  { isDir := true, dev := 1, ino := 1, mode := 493, size := 0, content := 0,
    xattr := 0, mtimeSec := 0, mtimeNsec := 0, atimeSec := 0, atimeNsec := 0 }

def c7src : FNode :=
  { isDir := false, dev := 1, ino := 4, mode := 420, size := 4, content := 6,
    xattr := 0, mtimeSec := 0, mtimeNsec := 0, atimeSec := 0, atimeNsec := 0 }

/-- Host volume (device 1) carrying the source booter, helper mount vb on
device 2 with no current booter copy. -/
def c7fs : FS :=
  [([], c7host), (["BootX"], c7src), (["vb"], { c7host with dev := 2, ino := 7 })]

def c7up : UpVol :=
  { curMount := ["vb"], curbootfd := 2, cachefd := 1, root := [],
    ofrpath := ["BootX"], efirpath := [], ofdst := [], efidst := [] }

/-- C7 counterexample.  The OF booter entry is present but the current
helper copy vb/BootX does not exist, so the rename to BootX.old fails with
ENOENT (second conjunct); contrary to the claim that a missing original is
tolerated for each of the two booters, ucopyBooters fails the helper
(ELAST + 1, state copyingOFBooter, third conjunct). -/
theorem c7_of_rename_enoent_fails_helper :
    FS.stat c7fs ["vb", "BootX"] = none ∧
    srename ((sunlink c7fs 2 ["vb", "BootX.old"]).2) 2 ["vb", "BootX"]
        ["vb", "BootX.old"] = (ENOENT, c7fs) ∧
    ucopyBooters c7fs c7up
      = (ELAST1, c7fs, { c7up with ofdst := ["vb", "BootX"] },
         BootRev.copyingOFBooter) := by
  decide

/-- C7 as amended.  Booter staging renames each present booter to its .old
name and then copies the source into place, but the ENOENT tolerance only
covers the EFI booter: (1) with an OF booter entry whose current helper
copy is missing, the rename failure (ENOENT included) fails the helper in
state copyingOFBooter; (2) for the EFI booter an ENOENT from the rename is
tolerated and control proceeds to the copy, whose outcome alone decides the
result. -/
theorem c7_booter_rename_tolerance_amended :
    (∀ (fs : FS) (up : UpVol), up.ofrpath ≠ [] →
      FS.stat fs (up.curMount ++ up.ofrpath) = none →
      (ucopyBooters fs up).1 = ELAST1 ∧
      (ucopyBooters fs up).2.2.2 = BootRev.copyingOFBooter) ∧
    (∀ (fs : FS) (up : UpVol), up.ofrpath = [] → up.efirpath ≠ [] →
      ∀ r : Int × FS,
        r = srename ((sunlink fs up.curbootfd
              (addExt (up.curMount ++ up.efirpath) OLDEXT)).2) up.curbootfd
            (up.curMount ++ up.efirpath)
            (addExt (up.curMount ++ up.efirpath) OLDEXT) →
        r.1 = ENOENT →
        ucopyBooters fs up =
          (if (scopyfile r.2 up.cachefd (up.root ++ up.efirpath) up.curbootfd
                (up.curMount ++ up.efirpath)).1 ≠ 0 then
            (ELAST1, (scopyfile r.2 up.cachefd (up.root ++ up.efirpath)
                up.curbootfd (up.curMount ++ up.efirpath)).2,
             { up with efidst := up.curMount ++ up.efirpath },
             BootRev.copyingEFIBooter)
          else
            (0, (scopyfile r.2 up.cachefd (up.root ++ up.efirpath)
                up.curbootfd (up.curMount ++ up.efirpath)).2,
             { up with efidst := up.curMount ++ up.efirpath },
             BootRev.copiedBooters))) := by
  constructor
  · intro fs up h1 h2
    unfold ucopyBooters
    rw [if_pos h1]
    dsimp only
    have h3 : FS.stat ((sunlink fs up.curbootfd
        (addExt (up.curMount ++ up.ofrpath) OLDEXT)).2)
        (up.curMount ++ up.ofrpath) = none :=
      sunlink_snd_stat_none h2
    have h4 := @srename_missing_old _ up.curbootfd _
      (addExt (up.curMount ++ up.ofrpath) OLDEXT) h3
    rw [if_pos h4.1]
    exact ⟨rfl, rfl⟩
  · intro fs up h1 h2 r hrdef hrval
    unfold ucopyBooters
    rw [if_neg (by rw [h1]; exact fun hc => hc rfl)]
    unfold ucopyBootersEFI
    rw [if_pos h2]
    dsimp only
    rw [← hrdef]
    rw [if_neg (by rw [hrval]; decide)]

/-- Helper for the C7 witness: host volume with the source EFI booter,
helper vb with no current copy (the rename will see ENOENT and the copy
will succeed). -/
def c7wfs : FS :=
  [([], c7host), (["boot.efi"], { c7src with ino := 9, size := 10, content := 7 }),
   (["vb"], { c7host with dev := 2, ino := 7 })]

def c7wup : UpVol :=
  { curMount := ["vb"], curbootfd := 2, cachefd := 1, root := [],
    ofrpath := [], efirpath := ["boot.efi"], ofdst := [], efidst := [] }

/-- C7 witness: both halves of the amended claim at concrete inputs.  The
OF half fails the helper on a missing original; the EFI half sees the
ENOENT rename, continues, copies successfully and reaches state
copiedBooters. -/
theorem c7_booter_rename_tolerance_amended_witness :
    ((ucopyBooters c7fs c7up).1 = ELAST1 ∧
     (ucopyBooters c7fs c7up).2.2.2 = BootRev.copyingOFBooter) ∧
    ((ucopyBooters c7wfs c7wup).1 = 0 ∧
     (ucopyBooters c7wfs c7wup).2.2.2 = BootRev.copiedBooters) := by
  constructor
  · exact c7_booter_rename_tolerance_amended.1 c7fs c7up (by decide) (by decide)
  · have h := c7_booter_rename_tolerance_amended.2 c7wfs c7wup rfl (by decide)
      _ rfl (by decide)
    rw [h]
    exact ⟨by decide, by decide⟩

/-! ## Claim C5: SafePath scope confinement -/

theorem insertByLen_mem {e x : Path × FNode} {l : List (Path × FNode)} :
    x ∈ insertByLen e l ↔ x = e ∨ x ∈ l := by
  induction l with
  | nil => simp [insertByLen]
  | cons a t ih =>
    unfold insertByLen
    by_cases hc : a.1.length ≤ e.1.length
    · rw [if_pos hc]
      simp [List.mem_cons]
    · rw [if_neg hc]
      simp only [List.mem_cons, ih]
      tauto

theorem sortByLen_mem {x : Path × FNode} {l : List (Path × FNode)} :
    x ∈ sortByLen l ↔ x ∈ l := by
  induction l with
  | nil => simp [sortByLen]
  | cons a t ih =>
    unfold sortByLen at ih ⊢
    rw [List.foldr_cons, insertByLen_mem, ih, List.mem_cons]

theorem schdirparent_noparent {fs : FS} {fdvol : Nat} {q : Path}
    (h : FS.stat fs (dirnameP q) = none) : schdirparent fs fdvol q = none := by
  unfold schdirparent
  by_cases hq : q = []
  · rw [if_pos hq]
  · rw [if_neg hq, h]

theorem sdeepmkdirF_stat_some {fuel : Nat} {fs : FS} {fdvol : Nat} {q : Path}
    {mode : Nat} {sb : FNode} (h : FS.stat fs q = some sb) :
    sdeepmkdirF (fuel + 1) fs fdvol q mode = (0, fs) := by
  simp only [sdeepmkdirF]
  rw [h]
  dsimp only
  rw [if_neg (by norm_num [S_IFDIR])]

theorem sduStep_fail {fs : FS} {fdvol : Nat} {e : Path × FNode} {r : Int}
    (h : schdirparent fs fdvol e.1 = none) :
    sduStep fdvol (r, fs) e = (orErr r (-1), fs) := by
  unfold sduStep
  dsimp only
  by_cases hd : e.2.isDir
  · rw [if_pos hd]
    unfold srmdir
    rw [h]
  · rw [if_neg hd]
    unfold sunlink
    rw [h]

theorem sdu_fold {fdvol : Nat} {fs : FS} :
    ∀ (l : List (Path × FNode)) (r0 : Int),
      (∀ e ∈ l, schdirparent fs fdvol e.1 = none) →
      (l.foldl (sduStep fdvol) (r0, fs)).2 = fs ∧
      ((r0 ≠ 0 ∨ l ≠ []) → (l.foldl (sduStep fdvol) (r0, fs)).1 ≠ 0) := by
  intro l
  induction l with
  | nil =>
    intro r0 hf
    refine ⟨rfl, ?_⟩
    rintro (h | h)
    · exact h
    · exact absurd rfl h
  | cons e t ih =>
    intro r0 hf
    have hstep := @sduStep_fail _ _ _ r0 (hf e (List.mem_cons_self e t))
    rw [List.foldl_cons, hstep]
    have hr : orErr r0 (-1) ≠ 0 := orErr_ne_zero_right (by norm_num)
    have hrec := ih (orErr r0 (-1)) (fun x hx => hf x (List.mem_cons_of_mem e hx))
    exact ⟨hrec.1, fun _ => hrec.2 (Or.inl hr)⟩

/-- C5 as amended.  Every mutating SafePath primitive called with scope
descriptor fdvol and a target whose containing directory lives on a device
other than the scope device performs no mutation: the device check of the
common prologue fails with EPERM and the primitive returns an error — with
one exception the source forces: sdeepmkdir returns success without any
check (and still without mutating) when the target path already exists, so
for it the error is only guaranteed when the target is missing.  For
sdeepunlink the per-entry re-checks also require that the subtree under the
target sits on the device of the containing directory (no mount point
below the target), which hsub states. -/
theorem c5_safepath_scope_confinement_amended
    (fs : FS) (fdvol : Nat) (path : Path) (pn : FNode)
    (hp : FS.stat fs (dirnameP path) = some pn)
    (hdev : pn.dev ≠ fdvol)
    (hsub : ∀ e ∈ fs, pstarts path e.1 = true → e.2.dev = pn.dev) :
    spolicy fdvol pn.dev = EPERM ∧
    (∀ flags mode, sopen fs fdvol path flags mode = (none, fs)) ∧
    (∀ mode, smkdir fs fdvol path mode = (-1, fs)) ∧
    srmdir fs fdvol path = (-1, fs) ∧
    sunlink fs fdvol path = (-1, fs) ∧
    (∀ newp, srename fs fdvol path newp = (-1, fs)) ∧
    ((sdeepunlink fs fdvol path).1 ≠ 0 ∧ (sdeepunlink fs fdvol path).2 = fs) ∧
    (∀ mode, (sdeepmkdir fs fdvol path mode).2 = fs ∧
      (FS.stat fs path = none → (sdeepmkdir fs fdvol path mode).1 ≠ 0)) ∧
    (∀ srcfdvol srcpath,
      (scopyfile fs srcfdvol srcpath fdvol path).1 = -1 ∧
      (scopyfile fs srcfdvol srcpath fdvol path).2 = fs) := by
  have hsp : schdirparent fs fdvol path = none := schdirparent_none_of hp hdev
  have hpol : spolicy fdvol pn.dev = EPERM := by
    unfold spolicy
    rw [if_pos (fun hc => hdev hc.symm)]
  have hsopen : ∀ flags mode, sopen fs fdvol path flags mode = (none, fs) := by
    intro flags mode
    unfold sopen
    dsimp only
    rw [hsp]
  have hsunlink : sunlink fs fdvol path = (-1, fs) := by
    unfold sunlink
    rw [hsp]
  have hsch : ∀ e ∈ fs.filter (fun x => pstarts path x.1),
      schdirparent fs fdvol e.1 = none := by
    intro e he
    have hmem := List.mem_filter.mp he
    have hpse : pstarts path e.1 = true := hmem.2
    by_cases hq : e.1 = path
    · rw [hq]; exact hsp
    · have hps2 : pstarts path (dirnameP e.1) = true :=
        pstarts_dropLast_of hpse hq
      rcases hsq : FS.stat fs (dirnameP e.1) with _ | m
      · exact schdirparent_noparent hsq
      · have hm := stat_mem hsq
        have hdm : m.dev = pn.dev := hsub _ hm hps2
        exact schdirparent_none_of hsq (by rw [hdm]; exact hdev)
  have hdeepmk : ∀ mode, (sdeepmkdir fs fdvol path mode).2 = fs ∧
      (FS.stat fs path = none → (sdeepmkdir fs fdvol path mode).1 ≠ 0) := by
    intro mode
    unfold sdeepmkdir
    rcases hstat : FS.stat fs path with _ | sb
    · have hne : path ≠ [] := by
        intro hnil
        rw [hnil] at hstat hp
        rw [show dirnameP ([] : Path) = [] from rfl] at hp
        rw [hstat] at hp
        exact Option.noConfusion hp
      simp only [sdeepmkdirF]
      rw [hstat]
      dsimp only
      rw [if_neg hne]
      have hlen : path.length = (dirnameP path).length + 1 := by
        unfold dirnameP
        rw [List.length_dropLast]
        have : 0 < path.length := List.length_pos.mpr hne
        omega
      rw [hlen, sdeepmkdirF_stat_some hp]
      dsimp only
      rw [if_neg (by norm_num)]
      unfold smkdir
      rw [hsp]
      exact ⟨rfl, fun _ => by norm_num⟩
    · simp only [sdeepmkdirF]
      rw [hstat]
      dsimp only
      rw [if_neg (by norm_num [S_IFDIR])]
      exact ⟨rfl, fun hc => Option.noConfusion hc⟩
  refine ⟨hpol, hsopen, ?_, ?_, hsunlink, ?_, ?_, hdeepmk, ?_⟩
  · intro mode
    unfold smkdir
    rw [hsp]
  · unfold srmdir
    rw [hsp]
  · intro newp
    unfold srename
    by_cases hn : newp = []
    · rw [if_pos hn]
    · rw [if_neg hn, hsp]
  · rcases hstat : FS.stat fs path with _ | sb
    · unfold sdeepunlink
      rw [hstat]
      exact ⟨by norm_num [ENOENT], rfl⟩
    · unfold sdeepunlink
      rw [hstat]
      dsimp only
      have hfold := sdu_fold (sortByLen (fs.filter (fun x => pstarts path x.1)))
        0 (fun e he => hsch e (sortByLen_mem.mp he))
      have hmemp : (path, sb) ∈ sortByLen (fs.filter (fun x => pstarts path x.1)) :=
        sortByLen_mem.mpr
          (List.mem_filter.mpr ⟨stat_mem hstat, pstarts_refl path⟩)
      exact ⟨hfold.2 (Or.inr (List.ne_nil_of_mem hmemp)), hfold.1⟩
  · intro srcfdvol srcpath
    unfold scopyfile
    rcases hso : (sopen fs srcfdvol srcpath O_RDONLY 0).1 with _ | srcsb
    · exact ⟨rfl, rfl⟩
    · dsimp only
      unfold sdeepmkdir
      rw [sdeepmkdirF_stat_some hp]
      dsimp only
      rw [if_neg (by norm_num)]
      rw [show (sunlink fs fdvol path).2 = fs from by rw [hsunlink]]
      rw [hsopen (O_CREAT ||| O_WRONLY) (srcsb.stmode ||| S_IWUSR)]
      exact ⟨rfl, rfl⟩

def c5dir : FNode :=
  { isDir := true, dev := 1, ino := 2, mode := 493, size := 0, content := 0,
    xattr := 0, mtimeSec := 0, mtimeNsec := 0, atimeSec := 0, atimeNsec := 0 }

def c5fs : FS := [(["d"], c5dir), (["d", "t"], { c5dir with ino := 3 })]

/-- C5 counterexample.  The claim as stated says every mutating primitive —
sdeepmkdir included — fails with a permission error when the containing
directory of the target (here d, on device 1) is not on the scope device
(here 5).  But sdeepmkdir on the already existing d/t returns success
without running any device check: the claimed failure does not happen. -/
theorem c5_sdeepmkdir_existing_skips_policy :
    (FS.stat c5fs ["d"]).map (fun n => n.dev) = some 1 ∧
    sdeepmkdir c5fs 5 ["d", "t"] 493 = (0, c5fs) := by
  decide

def c5wroot : FNode := { c5dir with ino := 1 }

def c5wfile : FNode :=
  { isDir := false, dev := 1, ino := 4, mode := 420, size := 2, content := 8,
    xattr := 0, mtimeSec := 0, mtimeNsec := 0, atimeSec := 0, atimeNsec := 0 }

def c5wfs : FS :=
  [([], c5wroot), (["p"], { c5dir with ino := 2 }), (["p", "t"], c5wfile)]

/-- C5 witness: the amended theorem applied to a concrete filesystem whose
directory p lives on device 1 while the scope descriptor is on device 9. -/
theorem c5_safepath_scope_confinement_amended_witness :
    spolicy 9 1 = EPERM ∧
    sopen c5wfs 9 ["p", "t"] (O_CREAT ||| O_WRONLY) 420 = (none, c5wfs) ∧
    smkdir c5wfs 9 ["p", "t"] 493 = (-1, c5wfs) ∧
    srmdir c5wfs 9 ["p", "t"] = (-1, c5wfs) ∧
    sunlink c5wfs 9 ["p", "t"] = (-1, c5wfs) ∧
    srename c5wfs 9 ["p", "t"] ["p", "t.old"] = (-1, c5wfs) ∧
    ((sdeepunlink c5wfs 9 ["p", "t"]).1 ≠ 0 ∧
     (sdeepunlink c5wfs 9 ["p", "t"]).2 = c5wfs) ∧
    (sdeepmkdir c5wfs 9 ["p", "t"] 493).2 = c5wfs ∧
    ((scopyfile c5wfs 1 ["src"] 9 ["p", "t"]).1 = -1 ∧
     (scopyfile c5wfs 1 ["src"] 9 ["p", "t"]).2 = c5wfs) := by
  have h := c5_safepath_scope_confinement_amended c5wfs 9 ["p", "t"]
    { c5dir with ino := 2 } rfl (by decide) (by decide)
  obtain ⟨h1, h2, h3, h4, h5, h6, h7, h8, h9⟩ := h
  exact ⟨h1, h2 (O_CREAT ||| O_WRONLY) 420, h3 493, h4, h5, h6 ["p", "t.old"],
         h7, (h8 493).1, h9 1 ["src"]⟩

/-! ## Claims C8 and C10: parseDict key accounting -/

/-- Keys of the top-level dictionary the parser understands. -/
def notTopKey (k : String) : Bool :=
  !(k == kBCPreBootKey || k == kBCBootersKey || k == kBCPostBootKey)

/-- Keys of the PreBootPaths sub-dictionary the parser understands. -/
def notPreKey (k : String) : Bool :=
  !(k == kBCAdditionalPathsKey || k == kBCLabelKey)

/-- Keys of the BooterPaths sub-dictionary the parser understands (the
OFBooter handling is commented out). -/
def notBootKey (k : String) : Bool := !(k == kBCEFIBooterKey)

/-- Keys of the PostBootPaths sub-dictionary the parser understands. -/
def notPostKey (k : String) : Bool :=
  !(k == kBCAdditionalPathsKey || k == kBCBootConfigKey || k == kBCMKextKey)

theorem filter_split (l : List String) (p q : String → Bool)
    (hpq : ∀ x, q x = !(p x)) :
    (l.filter p).length + (l.filter q).length = l.length := by
  induction l with
  | nil => rfl
  | cons a t ih =>
    cases hp : p a <;> simp [List.filter_cons, hp, hpq a] <;> omega

theorem filter_or_len (l : List String) (p q r : String → Bool)
    (hr : ∀ x, r x = (p x || q x))
    (h : ∀ x, ¬(p x = true ∧ q x = true)) :
    (l.filter r).length = (l.filter p).length + (l.filter q).length := by
  induction l with
  | nil => rfl
  | cons a t ih =>
    have ha := h a
    cases hp : p a
    · cases hq : q a <;> simp [List.filter_cons, hp, hq, hr a, ih] <;> omega
    · cases hq : q a
      · simp [List.filter_cons, hp, hq, hr a, ih]
        omega
      · exact absurd ⟨hp, hq⟩ ha

theorem len_split_top (ks : List String) :
    ks.length = (ks.filter notTopKey).length
      + (ks.filter (fun k => k == kBCPreBootKey)).length
      + (ks.filter (fun k => k == kBCBootersKey)).length
      + (ks.filter (fun k => k == kBCPostBootKey)).length := by
  have h1 := filter_split ks
    (fun k => k == kBCPreBootKey || k == kBCBootersKey || k == kBCPostBootKey)
    notTopKey (fun x => rfl)
  have h2 := filter_or_len ks
    (fun k => k == kBCPreBootKey || k == kBCBootersKey)
    (fun k => k == kBCPostBootKey)
    (fun k => k == kBCPreBootKey || k == kBCBootersKey || k == kBCPostBootKey)
    (fun x => rfl)
    (by
      rintro x ⟨ha, hb⟩
      rw [beq_iff_eq] at hb
      subst hb
      revert ha
      decide)
  have h3 := filter_or_len ks (fun k => k == kBCPreBootKey)
    (fun k => k == kBCBootersKey)
    (fun k => k == kBCPreBootKey || k == kBCBootersKey)
    (fun x => rfl)
    (by
      rintro x ⟨ha, hb⟩
      rw [beq_iff_eq] at ha
      subst ha
      revert hb
      decide)
  omega

theorem len_split_pre (ks : List String) :
    ks.length = (ks.filter notPreKey).length
      + (ks.filter (fun k => k == kBCAdditionalPathsKey)).length
      + (ks.filter (fun k => k == kBCLabelKey)).length := by
  have h1 := filter_split ks
    (fun k => k == kBCAdditionalPathsKey || k == kBCLabelKey)
    notPreKey (fun x => rfl)
  have h2 := filter_or_len ks (fun k => k == kBCAdditionalPathsKey)
    (fun k => k == kBCLabelKey)
    (fun k => k == kBCAdditionalPathsKey || k == kBCLabelKey)
    (fun x => rfl)
    (by
      rintro x ⟨ha, hb⟩
      rw [beq_iff_eq] at ha
      subst ha
      revert hb
      decide)
  omega

theorem len_split_boot (ks : List String) :
    ks.length = (ks.filter notBootKey).length
      + (ks.filter (fun k => k == kBCEFIBooterKey)).length := by
  have h1 := filter_split ks (fun k => k == kBCEFIBooterKey)
    notBootKey (fun x => rfl)
  omega

theorem len_split_post (ks : List String) :
    ks.length = (ks.filter notPostKey).length
      + (ks.filter (fun k => k == kBCAdditionalPathsKey)).length
      + (ks.filter (fun k => k == kBCBootConfigKey)).length
      + (ks.filter (fun k => k == kBCMKextKey)).length := by
  have h1 := filter_split ks
    (fun k =>
      k == kBCAdditionalPathsKey || k == kBCBootConfigKey || k == kBCMKextKey)
    notPostKey (fun x => rfl)
  have h2 := filter_or_len ks
    (fun k => k == kBCAdditionalPathsKey || k == kBCBootConfigKey)
    (fun k => k == kBCMKextKey)
    (fun k =>
      k == kBCAdditionalPathsKey || k == kBCBootConfigKey || k == kBCMKextKey)
    (fun x => rfl)
    (by
      rintro x ⟨ha, hb⟩
      rw [beq_iff_eq] at hb
      subst hb
      revert ha
      decide)
  have h3 := filter_or_len ks (fun k => k == kBCAdditionalPathsKey)
    (fun k => k == kBCBootConfigKey)
    (fun k => k == kBCAdditionalPathsKey || k == kBCBootConfigKey)
    (fun x => rfl)
    (by
      rintro x ⟨ha, hb⟩
      rw [beq_iff_eq] at ha
      subst ha
      revert hb
      decide)
  omega

theorem filter_len_zero {l : List String} {p : String → Bool}
    (h : (l.filter p).length = 0) : ∀ k ∈ l, p k = false := by
  intro k hk
  rcases hpk : p k with _ | _
  · rfl
  · have hm : k ∈ l.filter p := List.mem_filter.mpr ⟨hk, hpk⟩
    rw [List.length_eq_zero] at h
    rw [h] at hm
    simp at hm

theorem dkeys_length (d : List (String × CFVal)) :
    (dkeys d).length = d.length := by
  simp [dkeys]

theorem filter_beq_len {l : List String} (hnd : l.Nodup) (a : String) :
    (l.filter (fun k => k == a)).length = if a ∈ l then 1 else 0 := by
  induction l with
  | nil => simp
  | cons x t ih =>
    rcases List.nodup_cons.mp hnd with ⟨hx, hndt⟩
    by_cases hxa : x = a
    · subst hxa
      have h0 : (t.filter (fun k => k == x)).length = 0 := by
        rw [ih hndt, if_neg hx]
      simp [List.filter_cons, h0]
    · have hb : (x == a) = false := by simp [hxa]
      have hax : ¬(a = x) := fun hc => hxa hc.symm
      simp [List.filter_cons, hb, ih hndt, hax]

theorem dlookup_some_mem {d : List (String × CFVal)} {k : String} {v : CFVal}
    (h : dlookup d k = some v) : k ∈ dkeys d := by
  unfold dlookup at h
  rcases hf : d.find? (fun e => e.1 = k) with _ | e
  · rw [hf] at h; simp at h
  · have hm := List.mem_of_find?_eq_some hf
    have hp := List.find?_some hf
    simp at hp
    unfold dkeys
    exact List.mem_map.mpr ⟨e, hm, hp⟩

theorem dlookup_none_not_mem {d : List (String × CFVal)} {k : String}
    (h : dlookup d k = none) : k ∉ dkeys d := by
  unfold dlookup at h
  intro hk
  rcases List.mem_map.mp hk with ⟨e, he, hek⟩
  rcases hf : d.find? (fun e => e.1 = k) with _ | x
  · have := List.find?_eq_none.mp hf e he
    simp [hek] at this
  · rw [hf] at h; simp at h

theorem preboot_delta {d : List (String × CFVal)} {pb : PreBootRes}
    (h : parsePreBoot (some (CFVal.dict d)) = some pb)
    (hnd : (dkeys d).Nodup) :
    pb.kcDelta = (((dkeys d).filter notPreKey).length : Int) - 1 := by
  have hs := len_split_pre (dkeys d)
  have hdk := dkeys_length d
  unfold parsePreBoot at h
  dsimp only at h
  rcases la : dlookup d kBCAdditionalPathsKey with _ | va
  · rw [la] at h
    dsimp only at h
    have hA : ((dkeys d).filter (fun k => k == kBCAdditionalPathsKey)).length
        = 0 := by
      rw [filter_beq_len hnd, if_neg (dlookup_none_not_mem la)]
    rcases ll : dlookup d kBCLabelKey with _ | vl
    · rw [ll] at h
      dsimp only at h
      have hL : ((dkeys d).filter (fun k => k == kBCLabelKey)).length = 0 := by
        rw [filter_beq_len hnd, if_neg (dlookup_none_not_mem ll)]
      injection h with h2
      have hd2 : pb.kcDelta = (d.length : Int) - 1 := by rw [← h2]
      omega
    · cases vl with
      | str s =>
        rw [ll] at h
        dsimp only at h
        have hL : ((dkeys d).filter (fun k => k == kBCLabelKey)).length = 1 := by
          rw [filter_beq_len hnd, if_pos (dlookup_some_mem ll)]
        injection h with h2
        have hd2 : pb.kcDelta = (d.length : Int) - 1 - 1 := by rw [← h2]
        omega
      | arr a2 => rw [ll] at h; dsimp only at h; exact Option.noConfusion h
      | dict d2 => rw [ll] at h; dsimp only at h; exact Option.noConfusion h
      | num n => rw [ll] at h; dsimp only at h; exact Option.noConfusion h
  · cases va with
    | arr a =>
      rw [la] at h
      dsimp only at h
      rcases es : elemStrings a with _ | ms
      · rw [es] at h; dsimp only at h; exact Option.noConfusion h
      · rw [es] at h
        dsimp only at h
        have hA : ((dkeys d).filter (fun k => k == kBCAdditionalPathsKey)).length
            = 1 := by
          rw [filter_beq_len hnd, if_pos (dlookup_some_mem la)]
        rcases ll : dlookup d kBCLabelKey with _ | vl
        · rw [ll] at h
          dsimp only at h
          have hL : ((dkeys d).filter (fun k => k == kBCLabelKey)).length
              = 0 := by
            rw [filter_beq_len hnd, if_neg (dlookup_none_not_mem ll)]
          injection h with h2
          have hd2 : pb.kcDelta = (d.length : Int) - 1 - 1 := by rw [← h2]
          omega
        · cases vl with
          | str s =>
            rw [ll] at h
            dsimp only at h
            have hL : ((dkeys d).filter (fun k => k == kBCLabelKey)).length
                = 1 := by
              rw [filter_beq_len hnd, if_pos (dlookup_some_mem ll)]
            injection h with h2
            have hd2 : pb.kcDelta = (d.length : Int) - 1 - 1 - 1 := by rw [← h2]
            omega
          | arr a2 => rw [ll] at h; dsimp only at h; exact Option.noConfusion h
          | dict d2 => rw [ll] at h; dsimp only at h; exact Option.noConfusion h
          | num n => rw [ll] at h; dsimp only at h; exact Option.noConfusion h
    | str s => rw [la] at h; dsimp only at h; exact Option.noConfusion h
    | dict d2 => rw [la] at h; dsimp only at h; exact Option.noConfusion h
    | num n => rw [la] at h; dsimp only at h; exact Option.noConfusion h

theorem booters_delta {d : List (String × CFVal)} {bt : Int × String}
    (h : parseBooters (some (CFVal.dict d)) = some bt)
    (hnd : (dkeys d).Nodup) :
    bt.1 = (((dkeys d).filter notBootKey).length : Int) - 1 := by
  have hs := len_split_boot (dkeys d)
  have hdk := dkeys_length d
  unfold parseBooters at h
  dsimp only at h
  rcases le2 : dlookup d kBCEFIBooterKey with _ | ve
  · rw [le2] at h
    dsimp only at h
    have hE : ((dkeys d).filter (fun k => k == kBCEFIBooterKey)).length = 0 := by
      rw [filter_beq_len hnd, if_neg (dlookup_none_not_mem le2)]
    injection h with h2
    have hd2 : bt.1 = (d.length : Int) - 1 := by rw [← h2]
    omega
  · cases ve with
    | str s =>
      rw [le2] at h
      dsimp only at h
      have hE : ((dkeys d).filter (fun k => k == kBCEFIBooterKey)).length
          = 1 := by
        rw [filter_beq_len hnd, if_pos (dlookup_some_mem le2)]
      injection h with h2
      have hd2 : bt.1 = (d.length : Int) - 1 - 1 := by rw [← h2]
      omega
    | arr a => rw [le2] at h; dsimp only at h; exact Option.noConfusion h
    | dict d2 => rw [le2] at h; dsimp only at h; exact Option.noConfusion h
    | num n => rw [le2] at h; dsimp only at h; exact Option.noConfusion h

theorem parseMKext_kc {v : Option CFVal} {r : Int × Option String × String}
    (h : parseMKext v = some r) :
    (v = none ∧ r.1 = 0) ∨ (∃ mk, v = some (CFVal.dict mk) ∧ r.1 = 1) := by
  cases v with
  | none =>
    left
    refine ⟨rfl, ?_⟩
    unfold parseMKext at h
    dsimp only at h
    injection h with h2
    rw [← h2]
  | some w =>
    cases w with
    | dict mk =>
      right
      refine ⟨mk, rfl, ?_⟩
      unfold parseMKext at h
      dsimp only at h
      rcases lp : dlookup mk kBCPathKey with _ | vp
      · rw [lp] at h; dsimp only at h; exact Option.noConfusion h
      · cases vp with
        | str s =>
          rw [lp] at h
          dsimp only at h
          rcases lx : dlookup mk kBCExtensionsDirKey with _ | vx
          · rw [lx] at h
            dsimp only at h
            injection h with h2
            rw [← h2]
          · cases vx with
            | str e =>
              rw [lx] at h
              dsimp only at h
              injection h with h2
              rw [← h2]
            | arr a => rw [lx] at h; dsimp only at h; exact Option.noConfusion h
            | dict d2 => rw [lx] at h; dsimp only at h; exact Option.noConfusion h
            | num n => rw [lx] at h; dsimp only at h; exact Option.noConfusion h
        | arr a => rw [lp] at h; dsimp only at h; exact Option.noConfusion h
        | dict d2 => rw [lp] at h; dsimp only at h; exact Option.noConfusion h
        | num n => rw [lp] at h; dsimp only at h; exact Option.noConfusion h
    | str s => unfold parseMKext at h; dsimp only at h; exact Option.noConfusion h
    | arr a => unfold parseMKext at h; dsimp only at h; exact Option.noConfusion h
    | num n => unfold parseMKext at h; dsimp only at h; exact Option.noConfusion h

theorem postboot_delta {d : List (String × CFVal)} {po : PostBootRes}
    (h : parsePostBoot (some (CFVal.dict d)) = some po)
    (hnd : (dkeys d).Nodup) :
    po.kcDelta = (((dkeys d).filter notPostKey).length : Int) - 1 := by
  have hs := len_split_post (dkeys d)
  have hdk := dkeys_length d
  have hMfact : ∀ (kcM : Int) (mkx : Option String) (exts : String),
      parseMKext (dlookup d kBCMKextKey) = some (kcM, mkx, exts) →
      (((dkeys d).filter (fun k => k == kBCMKextKey)).length : Int) = kcM := by
    intro kcM mkx exts em
    rcases parseMKext_kc em with ⟨hv0, hr0⟩ | ⟨mk, hv1, hr1⟩
    · dsimp only at hr0
      rw [filter_beq_len hnd, if_neg (dlookup_none_not_mem hv0), hr0]
      rfl
    · dsimp only at hr1
      rw [filter_beq_len hnd, if_pos (dlookup_some_mem hv1), hr1]
      rfl
  unfold parsePostBoot at h
  dsimp only at h
  rcases la : dlookup d kBCAdditionalPathsKey with _ | va
  · rw [la] at h
    dsimp only at h
    have hA : ((dkeys d).filter (fun k => k == kBCAdditionalPathsKey)).length
        = 0 := by
      rw [filter_beq_len hnd, if_neg (dlookup_none_not_mem la)]
    rcases lb : dlookup d kBCBootConfigKey with _ | vb
    · rw [lb] at h
      dsimp only at h
      have hB : ((dkeys d).filter (fun k => k == kBCBootConfigKey)).length
          = 0 := by
        rw [filter_beq_len hnd, if_neg (dlookup_none_not_mem lb)]
      rcases em : parseMKext (dlookup d kBCMKextKey) with _ | r
      · rw [em] at h; dsimp only at h; exact Option.noConfusion h
      · obtain ⟨kcM, mkx, exts⟩ := r
        rw [em] at h
        dsimp only at h
        have hM := hMfact kcM mkx exts em
        injection h with h2
        have hd2 : po.kcDelta = (d.length : Int) - 0 - 0 - kcM - 1 := by
          rw [← h2]
        omega
    · cases vb with
      | str s =>
        rw [lb] at h
        dsimp only at h
        have hB : ((dkeys d).filter (fun k => k == kBCBootConfigKey)).length
            = 1 := by
          rw [filter_beq_len hnd, if_pos (dlookup_some_mem lb)]
        rcases em : parseMKext (dlookup d kBCMKextKey) with _ | r
        · rw [em] at h; dsimp only at h; exact Option.noConfusion h
        · obtain ⟨kcM, mkx, exts⟩ := r
          rw [em] at h
          dsimp only at h
          have hM := hMfact kcM mkx exts em
          injection h with h2
          have hd2 : po.kcDelta = (d.length : Int) - 0 - 1 - kcM - 1 := by
            rw [← h2]
          omega
      | arr a2 => rw [lb] at h; dsimp only at h; exact Option.noConfusion h
      | dict d2 => rw [lb] at h; dsimp only at h; exact Option.noConfusion h
      | num n => rw [lb] at h; dsimp only at h; exact Option.noConfusion h
  · cases va with
    | arr a =>
      rw [la] at h
      dsimp only at h
      rcases es : elemStrings a with _ | ms
      · rw [es] at h; dsimp only at h; exact Option.noConfusion h
      · rw [es] at h
        dsimp only at h
        have hA : ((dkeys d).filter (fun k => k == kBCAdditionalPathsKey)).length
            = 1 := by
          rw [filter_beq_len hnd, if_pos (dlookup_some_mem la)]
        rcases lb : dlookup d kBCBootConfigKey with _ | vb
        · rw [lb] at h
          dsimp only at h
          have hB : ((dkeys d).filter (fun k => k == kBCBootConfigKey)).length
              = 0 := by
            rw [filter_beq_len hnd, if_neg (dlookup_none_not_mem lb)]
          rcases em : parseMKext (dlookup d kBCMKextKey) with _ | r
          · rw [em] at h; dsimp only at h; exact Option.noConfusion h
          · obtain ⟨kcM, mkx, exts⟩ := r
            rw [em] at h
            dsimp only at h
            have hM := hMfact kcM mkx exts em
            injection h with h2
            have hd2 : po.kcDelta = (d.length : Int) - 1 - 0 - kcM - 1 := by
              rw [← h2]
            omega
        · cases vb with
          | str s =>
            rw [lb] at h
            dsimp only at h
            have hB : ((dkeys d).filter (fun k => k == kBCBootConfigKey)).length
                = 1 := by
              rw [filter_beq_len hnd, if_pos (dlookup_some_mem lb)]
            rcases em : parseMKext (dlookup d kBCMKextKey) with _ | r
            · rw [em] at h; dsimp only at h; exact Option.noConfusion h
            · obtain ⟨kcM, mkx, exts⟩ := r
              rw [em] at h
              dsimp only at h
              have hM := hMfact kcM mkx exts em
              injection h with h2
              have hd2 : po.kcDelta = (d.length : Int) - 1 - 1 - kcM - 1 := by
                rw [← h2]
              omega
          | arr a2 => rw [lb] at h; dsimp only at h; exact Option.noConfusion h
          | dict d2 => rw [lb] at h; dsimp only at h; exact Option.noConfusion h
          | num n => rw [lb] at h; dsimp only at h; exact Option.noConfusion h
    | str s => rw [la] at h; dsimp only at h; exact Option.noConfusion h
    | dict d2 => rw [la] at h; dsimp only at h; exact Option.noConfusion h
    | num n => rw [la] at h; dsimp only at h; exact Option.noConfusion h

theorem preboot_section {bc : List (String × CFVal)} {pb : PreBootRes}
    (e1 : parsePreBoot (dlookup bc kBCPreBootKey) = some pb)
    (hTop : (dkeys bc).Nodup)
    (hPre : ∀ d, dlookup bc kBCPreBootKey = some (CFVal.dict d) →
      (dkeys d).Nodup) :
    ∃ u : Nat,
      pb.kcDelta = (u : Int)
        - (((dkeys bc).filter (fun k => k == kBCPreBootKey)).length : Int) ∧
      (u = 0 → ∀ d, dlookup bc kBCPreBootKey = some (CFVal.dict d) →
        ∀ k ∈ dkeys d, k = kBCAdditionalPathsKey ∨ k = kBCLabelKey) := by
  rcases l1 : dlookup bc kBCPreBootKey with _ | v1
  · refine ⟨0, ?_, ?_⟩
    · rw [l1] at e1
      unfold parsePreBoot at e1
      dsimp only at e1
      injection e1 with h2
      have h3 : pb.kcDelta = 0 := by rw [← h2]
      rw [h3, filter_beq_len hTop, if_neg (dlookup_none_not_mem l1)]
      rfl
    · intro _ d hd
      exact Option.noConfusion hd
  · cases v1 with
    | dict d1 =>
      rw [l1] at e1
      refine ⟨((dkeys d1).filter notPreKey).length, ?_, ?_⟩
      · rw [preboot_delta e1 (hPre d1 l1), filter_beq_len hTop,
            if_pos (dlookup_some_mem l1)]
        norm_num
      · intro hu d hd
        injection hd with h2
        injection h2 with h3
        subst h3
        intro k hk
        have hf := filter_len_zero hu k hk
        unfold notPreKey at hf
        simp at hf
        tauto
    | str s =>
      rw [l1] at e1; unfold parsePreBoot at e1; dsimp only at e1
      exact Option.noConfusion e1
    | arr a =>
      rw [l1] at e1; unfold parsePreBoot at e1; dsimp only at e1
      exact Option.noConfusion e1
    | num n =>
      rw [l1] at e1; unfold parsePreBoot at e1; dsimp only at e1
      exact Option.noConfusion e1

theorem booters_section {bc : List (String × CFVal)} {bt : Int × String}
    (e2 : parseBooters (dlookup bc kBCBootersKey) = some bt)
    (hTop : (dkeys bc).Nodup)
    (hBoot : ∀ d, dlookup bc kBCBootersKey = some (CFVal.dict d) →
      (dkeys d).Nodup) :
    ∃ u : Nat,
      bt.1 = (u : Int)
        - (((dkeys bc).filter (fun k => k == kBCBootersKey)).length : Int) ∧
      (u = 0 → ∀ d, dlookup bc kBCBootersKey = some (CFVal.dict d) →
        ∀ k ∈ dkeys d, k = kBCEFIBooterKey) := by
  rcases l1 : dlookup bc kBCBootersKey with _ | v1
  · refine ⟨0, ?_, ?_⟩
    · rw [l1] at e2
      unfold parseBooters at e2
      dsimp only at e2
      injection e2 with h2
      have h3 : bt.1 = 0 := by rw [← h2]
      rw [h3, filter_beq_len hTop, if_neg (dlookup_none_not_mem l1)]
      rfl
    · intro _ d hd
      exact Option.noConfusion hd
  · cases v1 with
    | dict d1 =>
      rw [l1] at e2
      refine ⟨((dkeys d1).filter notBootKey).length, ?_, ?_⟩
      · rw [booters_delta e2 (hBoot d1 l1), filter_beq_len hTop,
            if_pos (dlookup_some_mem l1)]
        norm_num
      · intro hu d hd
        injection hd with h2
        injection h2 with h3
        subst h3
        intro k hk
        have hf := filter_len_zero hu k hk
        unfold notBootKey at hf
        simp at hf
        tauto
    | str s =>
      rw [l1] at e2; unfold parseBooters at e2; dsimp only at e2
      exact Option.noConfusion e2
    | arr a =>
      rw [l1] at e2; unfold parseBooters at e2; dsimp only at e2
      exact Option.noConfusion e2
    | num n =>
      rw [l1] at e2; unfold parseBooters at e2; dsimp only at e2
      exact Option.noConfusion e2

theorem postboot_section {bc : List (String × CFVal)} {po : PostBootRes}
    (e3 : parsePostBoot (dlookup bc kBCPostBootKey) = some po)
    (hTop : (dkeys bc).Nodup)
    (hPost : ∀ d, dlookup bc kBCPostBootKey = some (CFVal.dict d) →
      (dkeys d).Nodup) :
    ∃ u : Nat,
      po.kcDelta = (u : Int)
        - (((dkeys bc).filter (fun k => k == kBCPostBootKey)).length : Int) ∧
      (u = 0 → ∀ d, dlookup bc kBCPostBootKey = some (CFVal.dict d) →
        ∀ k ∈ dkeys d,
          k = kBCAdditionalPathsKey ∨ k = kBCBootConfigKey ∨ k = kBCMKextKey)
    := by
  rcases l1 : dlookup bc kBCPostBootKey with _ | v1
  · refine ⟨0, ?_, ?_⟩
    · rw [l1] at e3
      unfold parsePostBoot at e3
      dsimp only at e3
      injection e3 with h2
      have h3 : po.kcDelta = 0 := by rw [← h2]
      rw [h3, filter_beq_len hTop, if_neg (dlookup_none_not_mem l1)]
      rfl
    · intro _ d hd
      exact Option.noConfusion hd
  · cases v1 with
    | dict d1 =>
      rw [l1] at e3
      refine ⟨((dkeys d1).filter notPostKey).length, ?_, ?_⟩
      · rw [postboot_delta e3 (hPost d1 l1), filter_beq_len hTop,
            if_pos (dlookup_some_mem l1)]
        norm_num
      · intro hu d hd
        injection hd with h2
        injection h2 with h3
        subst h3
        intro k hk
        have hf := filter_len_zero hu k hk
        unfold notPostKey at hf
        simp at hf
        tauto
    | str s =>
      rw [l1] at e3; unfold parsePostBoot at e3; dsimp only at e3
      exact Option.noConfusion e3
    | arr a =>
      rw [l1] at e3; unfold parsePostBoot at e3; dsimp only at e3
      exact Option.noConfusion e3
    | num n =>
      rw [l1] at e3; unfold parsePostBoot at e3; dsimp only at e3
      exact Option.noConfusion e3

/-- parseDict accepts a descriptor only with keyCount exactly zero, so a
successfully parsed descriptor has no key the parser does not consume.
This lemma packages the four resulting facts. -/
theorem parseDict_success_keys {bc : List (String × CFVal)}
    {root uu vn : String} {c : BootCachesS}
    (hp : parseDict bc root uu vn = some c)
    (hTop : (dkeys bc).Nodup)
    (hPre : ∀ d, dlookup bc kBCPreBootKey = some (CFVal.dict d) →
      (dkeys d).Nodup)
    (hBoot : ∀ d, dlookup bc kBCBootersKey = some (CFVal.dict d) →
      (dkeys d).Nodup)
    (hPost : ∀ d, dlookup bc kBCPostBootKey = some (CFVal.dict d) →
      (dkeys d).Nodup) :
    (∀ k ∈ dkeys bc,
      k = kBCPreBootKey ∨ k = kBCBootersKey ∨ k = kBCPostBootKey) ∧
    (∀ d, dlookup bc kBCPreBootKey = some (CFVal.dict d) →
      ∀ k ∈ dkeys d, k = kBCAdditionalPathsKey ∨ k = kBCLabelKey) ∧
    (∀ d, dlookup bc kBCBootersKey = some (CFVal.dict d) →
      ∀ k ∈ dkeys d, k = kBCEFIBooterKey) ∧
    (∀ d, dlookup bc kBCPostBootKey = some (CFVal.dict d) →
      ∀ k ∈ dkeys d,
        k = kBCAdditionalPathsKey ∨ k = kBCBootConfigKey ∨ k = kBCMKextKey)
    := by
  unfold parseDict at hp
  rcases e1 : parsePreBoot (dlookup bc kBCPreBootKey) with _ | pb
  · rw [e1] at hp; dsimp only at hp; exact Option.noConfusion hp
  · rw [e1] at hp
    dsimp only at hp
    rcases e2 : parseBooters (dlookup bc kBCBootersKey) with _ | bt
    · rw [e2] at hp; dsimp only at hp; exact Option.noConfusion hp
    · rw [e2] at hp
      dsimp only at hp
      rcases e3 : parsePostBoot (dlookup bc kBCPostBootKey) with _ | po
      · rw [e3] at hp; dsimp only at hp; exact Option.noConfusion hp
      · rw [e3] at hp
        dsimp only at hp
        by_cases hkc : ((bc.length : Int) + pb.kcDelta + bt.1 + po.kcDelta) ≠ 0
        · rw [if_pos hkc] at hp
          exact Option.noConfusion hp
        · push_neg at hkc
          obtain ⟨u1, hu1, hc1⟩ := preboot_section e1 hTop hPre
          obtain ⟨u2, hu2, hc2⟩ := booters_section e2 hTop hBoot
          obtain ⟨u3, hu3, hc3⟩ := postboot_section e3 hTop hPost
          have hsplit := len_split_top (dkeys bc)
          have hdk := dkeys_length bc
          have hz : ((dkeys bc).filter notTopKey).length = 0
              ∧ u1 = 0 ∧ u2 = 0 ∧ u3 = 0 := by omega
          refine ⟨?_, hc1 hz.2.1, hc2 hz.2.2.1, hc3 hz.2.2.2⟩
          intro k hk
          have hf := filter_len_zero hz.1 k hk
          unfold notTopKey at hf
          simp at hf
          tauto

/-- Every successfully parsed bootCaches structure carries an empty
ofbooter relative path: calloc zeroes the field and the parser never
assigns it (the OFBooter block is commented out). -/
theorem parseDict_ofbooter {bc : List (String × CFVal)}
    {root uu vn : String} {c : BootCachesS}
    (hp : parseDict bc root uu vn = some c) : c.ofbooter = "" := by
  unfold parseDict at hp
  rcases e1 : parsePreBoot (dlookup bc kBCPreBootKey) with _ | pb
  · rw [e1] at hp; dsimp only at hp; exact Option.noConfusion hp
  · rw [e1] at hp
    dsimp only at hp
    rcases e2 : parseBooters (dlookup bc kBCBootersKey) with _ | bt
    · rw [e2] at hp; dsimp only at hp; exact Option.noConfusion hp
    · rw [e2] at hp
      dsimp only at hp
      rcases e3 : parsePostBoot (dlookup bc kBCPostBootKey) with _ | po
      · rw [e3] at hp; dsimp only at hp; exact Option.noConfusion hp
      · rw [e3] at hp
        dsimp only at hp
        by_cases hkc : ((bc.length : Int) + pb.kcDelta + bt.1 + po.kcDelta) ≠ 0
        · rw [if_pos hkc] at hp
          exact Option.noConfusion hp
        · rw [if_neg hkc] at hp
          injection hp with h2
          rw [← h2]

/-! ## C8: an unknown key anywhere the key counter covers rejects parsing -/

/-- C8.  parseDict succeeds only when the running key counter, initialized
to the total key count (top level plus the PreBootPaths, BooterPaths and
PostBootPaths sub-dictionaries) and decremented once per consumed key,
drains to exactly zero; hence for any successfully parsed descriptor with
duplicate-free key lists every key at each of the four covered levels is
one the parser understands, so any unknown (non-array-element) key would
have caused rejection. -/
theorem c8_parseDict_rejects_unknown_keys
    {bc : List (String × CFVal)} {root uu vn : String} {c : BootCachesS}
    (hp : parseDict bc root uu vn = some c)
    (hTop : (dkeys bc).Nodup)
    (hPre : ∀ d, dlookup bc kBCPreBootKey = some (CFVal.dict d) →
      (dkeys d).Nodup)
    (hBoot : ∀ d, dlookup bc kBCBootersKey = some (CFVal.dict d) →
      (dkeys d).Nodup)
    (hPost : ∀ d, dlookup bc kBCPostBootKey = some (CFVal.dict d) →
      (dkeys d).Nodup) :
    (∀ k ∈ dkeys bc,
      k = kBCPreBootKey ∨ k = kBCBootersKey ∨ k = kBCPostBootKey) ∧
    (∀ d, dlookup bc kBCPreBootKey = some (CFVal.dict d) →
      ∀ k ∈ dkeys d, k = kBCAdditionalPathsKey ∨ k = kBCLabelKey) ∧
    (∀ d, dlookup bc kBCBootersKey = some (CFVal.dict d) →
      ∀ k ∈ dkeys d, k = kBCEFIBooterKey) ∧
    (∀ d, dlookup bc kBCPostBootKey = some (CFVal.dict d) →
      ∀ k ∈ dkeys d,
        k = kBCAdditionalPathsKey ∨ k = kBCBootConfigKey ∨ k = kBCMKextKey)
    :=
  parseDict_success_keys hp hTop hPre hBoot hPost

/-- A fully featured descriptor: both misc paths, the EFI booter, a boot
config and an mkext block with two architectures. -/
def bcWpre : List (String × CFVal) :=
  [(kBCAdditionalPathsKey, CFVal.arr [CFVal.str ".VolumeIcon.icns"]),
   (kBCLabelKey, CFVal.str "System/Library/CoreServices/.disk_label")]

def bcWboot : List (String × CFVal) :=
  [(kBCEFIBooterKey, CFVal.str "System/Library/CoreServices/boot.efi")]

def bcWmk : List (String × CFVal) :=
  [(kBCPathKey, CFVal.str "System/Library/Extensions.mkext"),
   (kBCExtensionsDirKey, CFVal.str "System/Library/Extensions"),
   (kBCArchsKey, CFVal.arr [CFVal.str "i386", CFVal.str "ppc"])]

def bcWpost : List (String × CFVal) :=
  [(kBCBootConfigKey,
    CFVal.str "Library/Preferences/SystemConfiguration/com.apple.Boot.plist"),
   (kBCMKextKey, CFVal.dict bcWmk)]

def bcW : List (String × CFVal) :=
  [(kBCPreBootKey, CFVal.dict bcWpre), (kBCBootersKey, CFVal.dict bcWboot),
   (kBCPostBootKey, CFVal.dict bcWpost)]

/-- The bootCaches structure parseDict produces from bcW. -/
def cW : BootCachesS :=
  { root := "/", volUUIDStr := "UUID-1", volname := "Mac HD",
    exts := "System/Library/Extensions", nrps := 2,
    rpspaths :=
      ["Library/Preferences/SystemConfiguration/com.apple.Boot.plist",
       "System/Library/Extensions.mkext"],
    nmisc := 2,
    miscpaths := [".VolumeIcon.icns",
                  "System/Library/CoreServices/.disk_label"],
    efibooter := "System/Library/CoreServices/boot.efi", ofbooter := "",
    mkext := some "System/Library/Extensions.mkext",
    bootconfig :=
      some "Library/Preferences/SystemConfiguration/com.apple.Boot.plist",
    label := some "System/Library/CoreServices/.disk_label" }

theorem c8_parseDict_rejects_unknown_keys_witness :
    parseDict bcW "/" "UUID-1" "Mac HD" = some cW ∧
    (∀ k ∈ dkeys bcW,
      k = kBCPreBootKey ∨ k = kBCBootersKey ∨ k = kBCPostBootKey) ∧
    (∀ d, dlookup bcW kBCPostBootKey = some (CFVal.dict d) →
      ∀ k ∈ dkeys d,
        k = kBCAdditionalPathsKey ∨ k = kBCBootConfigKey ∨ k = kBCMKextKey)
    := by
  have hp : parseDict bcW "/" "UUID-1" "Mac HD" = some cW := by rfl
  have hPre : ∀ d, dlookup bcW kBCPreBootKey = some (CFVal.dict d) →
      (dkeys d).Nodup := by
    intro d hd
    have he : dlookup bcW kBCPreBootKey = some (CFVal.dict bcWpre) := by rfl
    rw [he] at hd
    injection hd with h2
    injection h2 with h3
    rw [← h3]
    decide
  have hBoot : ∀ d, dlookup bcW kBCBootersKey = some (CFVal.dict d) →
      (dkeys d).Nodup := by
    intro d hd
    have he : dlookup bcW kBCBootersKey = some (CFVal.dict bcWboot) := by rfl
    rw [he] at hd
    injection hd with h2
    injection h2 with h3
    rw [← h3]
    decide
  have hPost : ∀ d, dlookup bcW kBCPostBootKey = some (CFVal.dict d) →
      (dkeys d).Nodup := by
    intro d hd
    have he : dlookup bcW kBCPostBootKey = some (CFVal.dict bcWpost) := by rfl
    rw [he] at hd
    injection hd with h2
    injection h2 with h3
    rw [← h3]
    decide
  have h := c8_parseDict_rejects_unknown_keys hp (by decide) hPre hBoot hPost
  exact ⟨hp, h.1, h.2.2.2⟩

/-! ## C10: a parsed bootCaches never has an OF booter -/

/-- C10.  Every bootCaches structure the descriptor parser produces carries
an empty ofbooter relative path: the OFBooter block of parseDict is
commented out and the calloc-zeroed field is never assigned.  Hence the
rpath[0] presence guard is false, the path splits into no components, a
ucopyBooters run whose ofrpath comes from this field skips the OF block and
goes straight to the EFI half, and under the unknown-key rule any
BooterPaths entry other than EFIBooter would have rejected the whole
descriptor. -/
theorem c10_parsed_caches_never_of
    {bc : List (String × CFVal)} {root uu vn : String} {c : BootCachesS}
    (hp : parseDict bc root uu vn = some c)
    (hTop : (dkeys bc).Nodup)
    (hPre : ∀ d, dlookup bc kBCPreBootKey = some (CFVal.dict d) →
      (dkeys d).Nodup)
    (hBoot : ∀ d, dlookup bc kBCBootersKey = some (CFVal.dict d) →
      (dkeys d).Nodup)
    (hPost : ∀ d, dlookup bc kBCPostBootKey = some (CFVal.dict d) →
      (dkeys d).Nodup) :
    c.ofbooter = "" ∧
    rpathPresent c.ofbooter = false ∧
    splitPath c.ofbooter = [] ∧
    (∀ (fs : FS) (up : UpVol), up.ofrpath = splitPath c.ofbooter →
      ucopyBooters fs up = ucopyBootersEFI fs up) ∧
    (∀ d, dlookup bc kBCBootersKey = some (CFVal.dict d) →
      ∀ k ∈ dkeys d, k = kBCEFIBooterKey) := by
  have hof := parseDict_ofbooter hp
  have hk := parseDict_success_keys hp hTop hPre hBoot hPost
  have hsp : splitPath c.ofbooter = [] := by rw [hof]; decide
  refine ⟨hof, by rw [hof]; rfl, hsp, ?_, hk.2.2.1⟩
  intro fs up hup
  have hc : ¬ (up.ofrpath ≠ []) := fun hne => hne (hup.trans hsp)
  unfold ucopyBooters
  rw [if_neg hc]

/-- A minimal descriptor naming only the EFI booter. -/
def c10boot : List (String × CFVal) :=
  [(kBCEFIBooterKey, CFVal.str "boot.efi")]

def bcB : List (String × CFVal) := [(kBCBootersKey, CFVal.dict c10boot)]

/-- The bootCaches structure parseDict produces from bcB. -/
def cB : BootCachesS :=
  { root := "/", volUUIDStr := "UUID-2", volname := "Helper",
    exts := "", nrps := 0, rpspaths := [], nmisc := 0, miscpaths := [],
    efibooter := "boot.efi", ofbooter := "",
    mkext := none, bootconfig := none, label := none }

theorem c10_parsed_caches_never_of_witness :
    parseDict bcB "/" "UUID-2" "Helper" = some cB ∧
    cB.ofbooter = "" ∧
    rpathPresent cB.ofbooter = false ∧
    (∀ d, dlookup bcB kBCBootersKey = some (CFVal.dict d) →
      ∀ k ∈ dkeys d, k = kBCEFIBooterKey) := by
  have hp : parseDict bcB "/" "UUID-2" "Helper" = some cB := by rfl
  have hPre : ∀ d, dlookup bcB kBCPreBootKey = some (CFVal.dict d) →
      (dkeys d).Nodup := by
    intro d hd
    have he : dlookup bcB kBCPreBootKey = none := by rfl
    rw [he] at hd
    exact Option.noConfusion hd
  have hBoot : ∀ d, dlookup bcB kBCBootersKey = some (CFVal.dict d) →
      (dkeys d).Nodup := by
    intro d hd
    have he : dlookup bcB kBCBootersKey = some (CFVal.dict c10boot) := by rfl
    rw [he] at hd
    injection hd with h2
    injection h2 with h3
    rw [← h3]
    decide
  have hPost : ∀ d, dlookup bcB kBCPostBootKey = some (CFVal.dict d) →
      (dkeys d).Nodup := by
    intro d hd
    have he : dlookup bcB kBCPostBootKey = none := by rfl
    rw [he] at hd
    exact Option.noConfusion hd
  have h := c10_parsed_caches_never_of hp (by decide) hPre hBoot hPost
  exact ⟨hp, h.1, h.2.1, h.2.2.2.2⟩

